import Mathlib

/-!
# TLV parser of barebox (common/tlv/parser.c)

A shallow embedding of `tlv_next`, `tlv_verify_try_key`, `tlv_verify` and
`tlv_parse`.  Pointers into the blob are byte offsets from the start of the
header, the blob is a total map from offsets to bytes, and everything the C
code does besides computing its return value (messages, CRC computation,
verification attempts, handler calls) is appended to an event log.
-/

namespace TLV

/-! ## Memory and unaligned accessors -/

/-- Blob memory: the byte stored at each offset from the header start. -/
abbrev Mem := Nat → Nat

/-- One byte of the blob, as an unsigned 8-bit value. -/
def byte (mem : Mem) (i : Nat) : Nat := mem i % 256

/-- Big-endian 16-bit load (get_unaligned_be16). -/
def get_unaligned_be16 (mem : Mem) (off : Nat) : Nat :=
  byte mem off * 256 + byte mem (off + 1)

/-- Big-endian 32-bit load (get_unaligned_be32). -/
def get_unaligned_be32 (mem : Mem) (off : Nat) : Nat :=
  ((byte mem off * 256 + byte mem (off + 1)) * 256 + byte mem (off + 2)) * 256
    + byte mem (off + 3)

/-- Little-endian 32-bit load (get_unaligned_le32). -/
def get_unaligned_le32 (mem : Mem) (off : Nat) : Nat :=
  ((byte mem (off + 3) * 256 + byte mem (off + 2)) * 256 + byte mem (off + 1)) * 256
    + byte mem off

/-- Store of one byte. -/
def store8 (mem : Mem) (off v : Nat) : Mem :=
  fun i => if i = off then v % 256 else mem i

/-- Big-endian 16-bit store (put_unaligned_be16). -/
def put_unaligned_be16 (v : Nat) (mem : Mem) (off : Nat) : Mem :=
  store8 (store8 mem off (v / 256)) (off + 1) v

/-- Subtraction of unsigned 32-bit values, wrapping modulo 2^32. -/
def u32_sub (a b : Nat) : Nat := (a % 2 ^ 32 + 2 ^ 32 - b % 2 ^ 32) % 2 ^ 32

/-- The bytes at offsets off, off+1, ..., off+len-1. -/
def readBytes (mem : Mem) (off len : Nat) : List Nat :=
  (List.range len).map (fun i => byte mem (off + i))

/-- A buffer given by its contents, zero beyond its end. -/
def memOfList (bytes : List Nat) : Mem := fun i => bytes.getD i 0

/-! ## Error numbers (asm-generic errno) -/

def ENOMEM : Int := 12
def EINVAL : Int := 22
def ENOSYS : Int := 38
def ENODATA : Int := 61
def EPROTO : Int := 71
def EOVERFLOW : Int := 75
def EILSEQ : Int := 84
def ENOKEY : Int := 126

/-! ## Header layout (tlv/format.h is not part of the sources at hand) -/

/-- Modelled from the spec: size of the fixed header of tlv/format.h
(magic 4, length_tlv 4, length_sig 2, reserved 2), the records start here. -/
def TLV_HEADER_SIZE : Nat := 12

/-- Modelled from the spec: offset of the length_tlv field of struct tlv_header. -/
def OFF_LENGTH_TLV : Nat := 4

/-- Modelled from the spec: offset of the length_sig field of struct tlv_header. -/
def OFF_LENGTH_SIG : Nat := 8

/-- The length_tlv field: byte count of the record section. -/
def length_tlv (mem : Mem) : Nat := get_unaligned_be32 mem OFF_LENGTH_TLV

/-- The length_sig field: byte count of the signature block, 0 = unsigned. -/
def length_sig (mem : Mem) : Nat := get_unaligned_be16 mem OFF_LENGTH_SIG

/-- Modelled from the spec: size_add of the kernel, an addition that saturates
at SIZE_MAX instead of wrapping. -/
def size_add (size_max a b : Nat) : Nat :=
  if a + b > size_max then size_max else a + b

/-- Modelled from the spec: tlv_total_len of tlv/format.h, the checked sum of
fixed header, record section, signature block and trailing CRC, as laid out in
the byte layout of the blob; the sentinel SIZE_MAX stands for overflow. -/
def tlv_total_len (size_max : Nat) (mem : Mem) : Nat :=
  size_add size_max
    (size_add size_max (size_add size_max TLV_HEADER_SIZE (length_tlv mem)) (length_sig mem)) 4

/-- Modelled from the spec: tlv_crc of tlv/format.h, the last 4 bytes of the
declared total size read as a big-endian word. -/
def tlv_crc (size_max : Nat) (mem : Mem) : Nat :=
  get_unaligned_be32 mem (tlv_total_len size_max mem - 4)

/-- Modelled from the spec: tlv_spki_hash_offset of tlv/format.h, the offset
right after the record section, where the key fingerprint is stored. -/
def tlv_spki_hash_offset (mem : Mem) : Nat := TLV_HEADER_SIZE + length_tlv mem

/-- Modelled from the spec: TLV_TAG of tlv/format.h, the big-endian 16-bit tag
that starts a record. -/
def TLV_TAG (mem : Mem) (tlv : Nat) : Nat := get_unaligned_be16 mem tlv

/-- Modelled from the spec: TLV_LEN of tlv/format.h, the big-endian 16-bit
count of value bytes stored after the tag. -/
def TLV_LEN (mem : Mem) (tlv : Nat) : Nat := get_unaligned_be16 mem (tlv + 2)

/-- Modelled from the spec: TLV_VAL of tlv/format.h, the address of the value
bytes, right after the 4-byte tag/length prefix. -/
def TLV_VAL (tlv : Nat) : Nat := tlv + 4

/-! ## CRC (crc32_be lives outside the sources at hand) -/

/-- One shift step of the big-endian CRC with polynomial 0x04C11DB7. -/
def crc32_be_bit (crc : Nat) : Nat :=
  if crc &&& 0x80000000 ≠ 0 then ((crc <<< 1) % 2 ^ 32) ^^^ 0x04C11DB7
  else (crc <<< 1) % 2 ^ 32

/-- Folding one input byte into the big-endian CRC. -/
def crc32_be_byte (crc b : Nat) : Nat :=
  crc32_be_bit (crc32_be_bit (crc32_be_bit (crc32_be_bit (crc32_be_bit
    (crc32_be_bit (crc32_be_bit (crc32_be_bit (crc ^^^ (b <<< 24)))))))))

/-- Modelled from the spec: crc32_be, the CRC32 with the standard polynomial,
accumulated big-endian (most significant bit first), from a given seed. -/
def crc32_be (seed : Nat) (data : List Nat) : Nat :=
  data.foldl crc32_be_byte seed

/-! ## Iterator -/

/-- A value of type struct tlv pointer: NULL, an ERR_PTR, or a record offset. -/
inductive TlvPtr where
  | null : TlvPtr
  | err (code : Int) : TlvPtr
  | ptr (off : Nat) : TlvPtr
  deriving DecidableEq, Repr

/-- The function __tlv_next in the offset view: the offset right after the
record at tlv, for a blob that lies in the address space far enough from its
top that the pointer addition does not wrap.  Machine.__tlv_next is the
function on machine pointers. -/
def __tlv_next (mem : Mem) (tlv : Nat) : Nat := tlv + 4 + TLV_LEN mem tlv

/-- The function tlv_next in the offset view; the argument is none for NULL,
some record offset otherwise.  It is what Machine.tlv_next computes for a blob
that does not reach into the last 64 KiB of the address space; for other
blobs the machine function is the authority. -/
def tlv_next (mem : Mem) (tlv : Option Nat) : TlvPtr :=
  let tlvs_start := TLV_HEADER_SIZE
  let tlv := match tlv with
    | some t => __tlv_next mem t
    | none => tlvs_start
  let tlvs_end := tlvs_start + get_unaligned_be32 mem OFF_LENGTH_TLV
  if tlv = tlvs_end then TlvPtr.null
  else
    let next_tlv := __tlv_next mem tlv
    if next_tlv > tlvs_end then TlvPtr.err (-ENODATA)
    else TlvPtr.ptr tlv

/-! ## Iterator on machine pointers -/

/-- The address space the parser runs in: its number of addresses (2^32 on a
32-bit build, 2^64 on a 64-bit one) and the address of the header.  A pointer
into the blob is represented by its distance from the header, so that the
pointer at distance p stands for the address (header + p) modulo size and the
byte it points to is the byte p of the blob. -/
structure AddrSpace where
  size : Nat
  header : Nat

/-- Pointer plus byte count: the sum wraps at the size of the address space. -/
def AddrSpace.add (sp : AddrSpace) (p n : Nat) : Nat := (p + n) % sp.size

/-- The address of the pointer at distance p from the header; pointers are
compared by their addresses. -/
def AddrSpace.addr (sp : AddrSpace) (p : Nat) : Nat := (sp.header + p) % sp.size

/-- The blob as seen through pointers: a distance is taken modulo the size of
the address space before the byte is fetched. -/
def AddrSpace.view (sp : AddrSpace) (mem : Mem) : Mem := fun p => mem (p % sp.size)

/-- The function __tlv_next on machine pointers: the pointer tlv advanced by 4
and by the length field read at tlv. -/
def Machine.__tlv_next (sp : AddrSpace) (mem : Mem) (tlv : Nat) : Nat :=
  sp.add tlv (4 + TLV_LEN (sp.view mem) tlv)

/-- The function tlv_next on machine pointers; the argument is none for NULL,
some pointer otherwise. -/
def Machine.tlv_next (sp : AddrSpace) (mem : Mem) (tlv : Option Nat) : TlvPtr :=
  let tlvs_start := sp.add 0 TLV_HEADER_SIZE
  let tlv := match tlv with
    | some t => Machine.__tlv_next sp mem t
    | none => tlvs_start
  let tlvs_end := sp.add tlvs_start (get_unaligned_be32 (sp.view mem) OFF_LENGTH_TLV)
  if sp.addr tlv = sp.addr tlvs_end then TlvPtr.null
  else
    let next_tlv := Machine.__tlv_next sp mem tlv
    if sp.addr next_tlv > sp.addr tlvs_end then TlvPtr.err (-ENODATA)
    else TlvPtr.ptr tlv

/-! ## Keys and the external crypto library -/

/-- The struct public_key fields the parser looks at; material stands for the
rsa/ecdsa key the union points to. -/
structure public_key where
  key_name_hint : String
  keyring : Option String
  hash : List Nat
  material : Nat
  deriving DecidableEq, Repr

/-- What digest_alloc_by_algo hands back: NULL, an error pointer, or a digest. -/
inductive DigestPtr where
  | null : DigestPtr
  | errptr : DigestPtr
  | valid : DigestPtr
  deriving DecidableEq, Repr

/-- The platform and the trusted library the parser is linked against.
SIZE_MAX is the largest size_t, CONFIG_TLV_SIGNATURE the build option,
digest the SHA-256 of a byte string, and public_key_verify the signature
primitive, which is given the memory, the address and length of the signature
and the hash, and returns 0 for a good signature. -/
structure Env where
  SIZE_MAX : Nat
  CONFIG_TLV_SIGNATURE : Bool
  digest_alloc_by_algo : DigestPtr
  digest : List Nat → List Nat
  public_key_verify : public_key → Mem → Nat → Nat → List Nat → Int

/-! ## Observable events -/

/-- What a call does besides returning: messages, the CRC computation,
verification attempts and handler calls, in program order. -/
inductive Event where
  | warn_overflow : Event
  | crc32_be_call (len : Nat) : Event
  | warn_crc (crc : Nat) : Event
  | verify_call (keyring : String) : Event
  | err_not_enabled : Event
  | err_unsigned : Event
  | try_key (key : public_key) (sig_off sig_len : Nat) (data : List Nat) : Event
  | warn_verify_failed (spki : Nat) (ret : Int) : Event
  | warn_no_key (spki : Nat) : Event
  | warn_unknown_tag (tag : Nat) : Event
  | handle (table entry : Nat) (len val : Nat) : Event
  deriving DecidableEq, Repr

/-! ## Signature verification -/

/-- The function tlv_verify_try_key: hash data_len bytes from the header start
and check the signature at sig_off against it. -/
def tlv_verify_try_key (env : Env) (key : public_key) (mem : Mem)
    (sig_off sig_len data_len : Nat) : Int :=
  match env.digest_alloc_by_algo with
  | DigestPtr.null => -ENOMEM
  | DigestPtr.errptr => -EINVAL
  | DigestPtr.valid =>
    let hash := env.digest (readBytes mem 0 data_len)
    let ret := env.public_key_verify key mem sig_off sig_len hash
    if ret ≠ 0 then -ENOKEY else 0

/-- The filter of for_each_public_key_keyring: keys without a keyring name or
with another name are skipped. -/
def in_keyring (key : public_key) (keyring : String) : Bool :=
  match key.keyring with
  | none => false
  | some name => name == keyring

/-- The fingerprint of a key: the first four bytes of key->hash, little-endian. -/
def spki_of_key (key : public_key) : Nat := get_unaligned_le32 (memOfList key.hash) 0

/-- Result of tlv_verify: return value, memory afterwards, and events. -/
structure VerifyResult where
  ret : Int
  mem : Mem
  log : List Event

/-- The body of the for_each_public_key_keyring loop of tlv_verify together
with the code after it.  The memory mem has length_sig zeroed; count is
count_spki_matches. -/
def tlv_verify_loop (env : Env) (mem : Mem) (keyring : String)
    (payload_sz spki_tlv sig_len : Nat) :
    List public_key → Nat → List Event → VerifyResult
  | [], count, log =>
    let mem := put_unaligned_be16 sig_len mem OFF_LENGTH_SIG
    if count = 0 then ⟨-ENOKEY, mem, log ++ [Event.warn_no_key spki_tlv]⟩
    else ⟨-EINVAL, mem, log⟩
  | key :: rest, count, log =>
    if in_keyring key keyring = false then
      tlv_verify_loop env mem keyring payload_sz spki_tlv sig_len rest count log
    else if spki_of_key key = spki_tlv then
      let sig_off := payload_sz + 4
      let sig_arg := u32_sub sig_len 4
      let ret := tlv_verify_try_key env key mem sig_off sig_arg payload_sz
      let log := log ++ [Event.try_key key sig_off sig_arg (readBytes mem 0 payload_sz)]
      if ret = 0 then ⟨0, mem, log⟩
      else
        tlv_verify_loop env mem keyring payload_sz spki_tlv sig_len rest (count + 1)
          (log ++ [Event.warn_verify_failed spki_tlv ret])
    else
      tlv_verify_loop env mem keyring payload_sz spki_tlv sig_len rest count log

/-- The function tlv_verify; keys is the list public_key_next walks. -/
def tlv_verify (env : Env) (keys : List public_key) (mem : Mem) (keyring : String) :
    VerifyResult :=
  let payload_sz := tlv_spki_hash_offset mem
  let spki_tlv := get_unaligned_le32 mem payload_sz
  let sig_len := get_unaligned_be16 mem OFF_LENGTH_SIG
  if env.CONFIG_TLV_SIGNATURE = false then ⟨-ENOSYS, mem, [Event.err_not_enabled]⟩
  else if sig_len = 0 then ⟨-EPROTO, mem, [Event.err_unsigned]⟩
  else
    let mem := put_unaligned_be16 0 mem OFF_LENGTH_SIG
    tlv_verify_loop env mem keyring payload_sz spki_tlv sig_len keys 0 []

/-! ## Decoder configuration and dispatch -/

/-- Modelled from the spec: struct tlv_mapping of tlv/tlv.h, a tag and its
handler.  The handler is given the device state, the record length, the
address of the value and the blob, and returns its int result and the new
device state. -/
structure tlv_mapping (σ : Type) where
  tag : Nat
  handle : σ → Nat → Nat → Mem → Int × σ

/-- Modelled from the spec: struct tlv_decoder of tlv/tlv.h, the ordered
mapping tables and the optional keyring name.  Each table lists its entries in
memory order; the first entry with tag 0, or the end of the list, is the
sentinel that terminates the table. -/
structure tlv_decoder (σ : Type) where
  mappings : List (List (tlv_mapping σ))
  signature_keyring : Option String

/-- The inner loop of the lookup in tlv_parse over one table, from entry index
i on: the index of the first entry with the tag, or none when the sentinel is
reached first. -/
def search_table {σ : Type} (tag : Nat) : List (tlv_mapping σ) → Nat → Option (Nat × tlv_mapping σ)
  | [], _ => none
  | m :: rest, i =>
    if m.tag = 0 then none
    else if m.tag = tag then some (i, m)
    else search_table tag rest (i + 1)

/-- The outer loop of the lookup in tlv_parse over the tables, from table index
t on: table index, entry index and entry of the first match. -/
def search_mappings {σ : Type} (tag : Nat) :
    List (List (tlv_mapping σ)) → Nat → Option (Nat × Nat × tlv_mapping σ)
  | [], _ => none
  | table :: rest, t =>
    match search_table tag table 0 with
    | some (i, m) => some (t, i, m)
    | none => search_mappings tag rest (t + 1)

/-- Result of tlv_parse: return value, blob afterwards, device state
afterwards, and events. -/
structure ParseResult (σ : Type) where
  ret : Int
  mem : Mem
  dev : σ
  log : List Event

/-- The for_each_tlv loop of tlv_parse followed by the final
PTR_ERR_OR_ZERO.  The argument tlv is the current value of the loop variable;
the first argument bounds the number of iterations, none is returned when it is
used up. -/
def tlv_parse_loop {σ : Type} (decoder : tlv_decoder σ) (mem : Mem) :
    Nat → TlvPtr → σ → List Event → Option (ParseResult σ)
  | 0, _, _, _ => none
  | _ + 1, TlvPtr.null, dev, log => some ⟨0, mem, dev, log⟩
  | _ + 1, TlvPtr.err code, dev, log => some ⟨code, mem, dev, log⟩
  | fuel + 1, TlvPtr.ptr tlv, dev, log =>
    let tag := TLV_TAG mem tlv
    let len := TLV_LEN mem tlv
    let val := TLV_VAL tlv
    match search_mappings tag decoder.mappings 0 with
    | none =>
      let log := if tag ≠ 0 then log ++ [Event.warn_unknown_tag tag] else log
      tlv_parse_loop decoder mem fuel (tlv_next mem (some tlv)) dev log
    | some (t, i, map) =>
      let r := map.handle dev len val mem
      let log := log ++ [Event.handle t i len val]
      if r.1 < 0 then some ⟨r.1, mem, r.2, log⟩
      else tlv_parse_loop decoder mem fuel (tlv_next mem (some tlv)) r.2 log

/-- The function tlv_parse.  The blob is the memory the device's header points
to, keys the list of registered public keys, dev the device state handlers
work on.  The record loop is run for at most length_tlv / 4 + 1 iterations. -/
def tlv_parse {σ : Type} (env : Env) (keys : List public_key) (decoder : tlv_decoder σ)
    (mem : Mem) (dev : σ) : Option (ParseResult σ) :=
  let size := tlv_total_len env.SIZE_MAX mem
  if size = env.SIZE_MAX then
    some ⟨-EOVERFLOW, mem, dev, [Event.warn_overflow]⟩
  else
    let crc := crc32_be 0xFFFFFFFF (readBytes mem 0 (size - 4))
    let log := [Event.crc32_be_call (size - 4)]
    if crc ≠ tlv_crc env.SIZE_MAX mem then
      some ⟨-EILSEQ, mem, dev, log ++ [Event.warn_crc crc]⟩
    else
      match decoder.signature_keyring with
      | some keyring =>
        let v := tlv_verify env keys mem keyring
        let log := log ++ [Event.verify_call keyring] ++ v.log
        if v.ret ≠ 0 then some ⟨v.ret, v.mem, dev, log⟩
        else
          tlv_parse_loop decoder v.mem (length_tlv v.mem / 4 + 1) (tlv_next v.mem none) dev log
      | none =>
        tlv_parse_loop decoder mem (length_tlv mem / 4 + 1) (tlv_next mem none) dev log

/-- The for_each_tlv loop of tlv_parse on machine pointers, followed by the
final PTR_ERR_OR_ZERO: the loop of tlv_parse_loop with tag, length and value
address taken through pointers and the iterator Machine.tlv_next.  The first
argument bounds the number of iterations, none is returned when it is used
up. -/
def Machine.tlv_parse_loop {σ : Type} (sp : AddrSpace) (decoder : tlv_decoder σ) (mem : Mem) :
    Nat → TlvPtr → σ → List Event → Option (ParseResult σ)
  | 0, _, _, _ => none
  | _ + 1, TlvPtr.null, dev, log => some ⟨0, mem, dev, log⟩
  | _ + 1, TlvPtr.err code, dev, log => some ⟨code, mem, dev, log⟩
  | fuel + 1, TlvPtr.ptr tlv, dev, log =>
    let tag := TLV_TAG (sp.view mem) tlv
    let len := TLV_LEN (sp.view mem) tlv
    let val := sp.add tlv 4
    match search_mappings tag decoder.mappings 0 with
    | none =>
      let log := if tag ≠ 0 then log ++ [Event.warn_unknown_tag tag] else log
      Machine.tlv_parse_loop sp decoder mem fuel (Machine.tlv_next sp mem (some tlv)) dev log
    | some (t, i, map) =>
      let r := map.handle dev len val mem
      let log := log ++ [Event.handle t i len val]
      if r.1 < 0 then some ⟨r.1, mem, r.2, log⟩
      else Machine.tlv_parse_loop sp decoder mem fuel (Machine.tlv_next sp mem (some tlv)) r.2 log

/-- The function tlv_parse with the record loop on machine pointers; the
checks ahead of the loop are those of tlv_parse.  The record loop is run for
at most fuel iterations. -/
def Machine.tlv_parse {σ : Type} (sp : AddrSpace) (fuel : Nat) (env : Env)
    (keys : List public_key) (decoder : tlv_decoder σ) (mem : Mem) (dev : σ) :
    Option (ParseResult σ) :=
  let size := tlv_total_len env.SIZE_MAX mem
  if size = env.SIZE_MAX then
    some ⟨-EOVERFLOW, mem, dev, [Event.warn_overflow]⟩
  else
    let crc := crc32_be 0xFFFFFFFF (readBytes mem 0 (size - 4))
    let log := [Event.crc32_be_call (size - 4)]
    if crc ≠ tlv_crc env.SIZE_MAX mem then
      some ⟨-EILSEQ, mem, dev, log ++ [Event.warn_crc crc]⟩
    else
      match decoder.signature_keyring with
      | some keyring =>
        let v := tlv_verify env keys mem keyring
        let log := log ++ [Event.verify_call keyring] ++ v.log
        if v.ret ≠ 0 then some ⟨v.ret, v.mem, dev, log⟩
        else Machine.tlv_parse_loop sp decoder v.mem fuel (Machine.tlv_next sp v.mem none) dev log
      | none =>
        Machine.tlv_parse_loop sp decoder mem fuel (Machine.tlv_next sp mem none) dev log

/-! ## Notions used to state the properties -/

/-- Records that an iteration on machine pointers hands out: the first one is
the valid result of tlv_next(header, NULL), each further one the valid result
of tlv_next on a record handed out before. -/
inductive Machine.Returned (sp : AddrSpace) (mem : Mem) : Nat → Prop where
  | first {s : Nat} : Machine.tlv_next sp mem none = TlvPtr.ptr s → Machine.Returned sp mem s
  | step {t s : Nat} : Machine.Returned sp mem t →
      Machine.tlv_next sp mem (some t) = TlvPtr.ptr s → Machine.Returned sp mem s

/-- The iteration for_each_tlv on machine pointers: tlv_iterate with the
iterator Machine.tlv_next. -/
def Machine.tlv_iterate (sp : AddrSpace) (mem : Mem) : Nat → Option Nat → Option (List Nat × TlvPtr)
  | 0, _ => none
  | fuel + 1, prev =>
    match Machine.tlv_next sp mem prev with
    | TlvPtr.ptr t => (Machine.tlv_iterate sp mem fuel (some t)).map (fun r => (t :: r.1, r.2))
    | TlvPtr.null => some ([], TlvPtr.null)
    | TlvPtr.err code => some ([], TlvPtr.err code)


/-- The end of the record section, as tlv_next computes it. -/
def tlvs_end (mem : Mem) : Nat := TLV_HEADER_SIZE + length_tlv mem

/-- The position tlv_next inspects: the section start for NULL, otherwise the
address right after the record passed in. -/
def next_pos (mem : Mem) (prev : Option Nat) : Nat :=
  match prev with
  | some t => __tlv_next mem t
  | none => TLV_HEADER_SIZE

/-- Records that an iteration hands out: the first one is the valid result of
tlv_next(header, NULL), each further one the valid result of tlv_next on a
record handed out before. -/
inductive Returned (mem : Mem) : Nat → Prop where
  | first {s : Nat} : tlv_next mem none = TlvPtr.ptr s → Returned mem s
  | step {t s : Nat} : Returned mem t → tlv_next mem (some t) = TlvPtr.ptr s → Returned mem s

/-- Records laid end to end: ts lists the start offsets of consecutive records,
the first at off, each one fitting into the record section, the last one
ending at stop. -/
def Records (mem : Mem) : Nat → List Nat → Nat → Prop
  | off, [], stop => off = stop
  | off, t :: ts, stop =>
    t = off ∧ off + 4 + TLV_LEN mem off ≤ tlvs_end mem ∧
      Records mem (off + 4 + TLV_LEN mem off) ts stop

/-- Dispatch of the records at the offsets ts, one after the other: the device
state and the events afterwards, or none as soon as a handler returns a
negative value. -/
def dispatch_records {σ : Type} (decoder : tlv_decoder σ) (mem : Mem) :
    List Nat → σ → List Event → Option (σ × List Event)
  | [], dev, log => some (dev, log)
  | t :: ts, dev, log =>
    match search_mappings (TLV_TAG mem t) decoder.mappings 0 with
    | none =>
      dispatch_records decoder mem ts dev
        (if TLV_TAG mem t ≠ 0 then log ++ [Event.warn_unknown_tag (TLV_TAG mem t)] else log)
    | some (ti, i, map) =>
      if (map.handle dev (TLV_LEN mem t) (t + 4) mem).1 < 0 then none
      else
        dispatch_records decoder mem ts (map.handle dev (TLV_LEN mem t) (t + 4) mem).2
          (log ++ [Event.handle ti i (TLV_LEN mem t) (t + 4)])

/-- The handler call the record at offset t gives rise to: the entry found
for its tag, its length and the address of its value; none when no table
holds the tag. -/
def handler_call {σ : Type} (decoder : tlv_decoder σ) (mem : Mem) (t : Nat) : Option Event :=
  match search_mappings (TLV_TAG mem t) decoder.mappings 0 with
  | some (ti, i, _) => some (Event.handle ti i (TLV_LEN mem t) (t + 4))
  | none => none

/-- No handler of the decoder ever returns a negative value. -/
def HandlersNonneg {σ : Type} (decoder : tlv_decoder σ) : Prop :=
  ∀ table ∈ decoder.mappings, ∀ map ∈ table, ∀ (dev : σ) (len val : Nat) (mem : Mem),
    0 ≤ (map.handle dev len val mem).1

/-- The blob as the record loop of tlv_parse sees it: untouched without a
keyring, as tlv_verify left it otherwise. -/
def mem_for_dispatch {σ : Type} (env : Env) (keys : List public_key)
    (decoder : tlv_decoder σ) (mem : Mem) : Mem :=
  match decoder.signature_keyring with
  | some keyring => (tlv_verify env keys mem keyring).mem
  | none => mem

/-- The events of tlv_parse up to the start of the record loop. -/
def log_before_dispatch {σ : Type} (env : Env) (keys : List public_key)
    (decoder : tlv_decoder σ) (mem : Mem) : List Event :=
  match decoder.signature_keyring with
  | some keyring =>
    [Event.crc32_be_call (tlv_total_len env.SIZE_MAX mem - 4), Event.verify_call keyring]
      ++ (tlv_verify env keys mem keyring).log
  | none => [Event.crc32_be_call (tlv_total_len env.SIZE_MAX mem - 4)]

/-- The checks of tlv_parse ahead of the record loop all pass: the total size
does not overflow, the stored CRC matches, and tlv_verify returns 0 when the
decoder names a keyring. -/
def ChecksPass {σ : Type} (env : Env) (keys : List public_key)
    (decoder : tlv_decoder σ) (mem : Mem) : Prop :=
  tlv_total_len env.SIZE_MAX mem ≠ env.SIZE_MAX ∧
  crc32_be 0xFFFFFFFF (readBytes mem 0 (tlv_total_len env.SIZE_MAX mem - 4))
    = tlv_crc env.SIZE_MAX mem ∧
  ∀ keyring, decoder.signature_keyring = some keyring →
    (tlv_verify env keys mem keyring).ret = 0

/-- Whether an event is a handler call. -/
def Event.is_handle : Event → Bool
  | Event.handle _ _ _ _ => true
  | _ => false

/-- Whether an event is a verification attempt with some key. -/
def Event.is_try_key : Event → Bool
  | Event.try_key _ _ _ _ => true
  | _ => false

/-- The entries of a mapping table that the lookup can reach: those before the
zero-tag sentinel. -/
def table_entries {σ : Type} (table : List (tlv_mapping σ)) : List (tlv_mapping σ) :=
  table.takeWhile (fun e => decide (e.tag ≠ 0))

/-- Serialisation of one record as the record format describes it: big-endian
16-bit tag, big-endian 16-bit count of value bytes, then the value bytes. -/
def encode_record (tag : Nat) (val : List Nat) : List Nat :=
  [tag / 256 % 256, tag % 256, val.length / 256 % 256, val.length % 256] ++ val

/-- Serialisation of a list of records (tag, value), one after the other. -/
def encode_records : List (Nat × List Nat) → List Nat
  | [] => []
  | r :: rs => encode_record r.1 r.2 ++ encode_records rs

/-- The record at offset t as a consumer reads it through TLV_TAG, TLV_LEN
and TLV_VAL: its tag and its value bytes. -/
def decode_record (mem : Mem) (t : Nat) : Nat × List Nat :=
  (TLV_TAG mem t, readBytes mem (TLV_VAL t) (TLV_LEN mem t))

/-- Modelled from the spec: the iteration for_each_tlv of tlv/format.h, which
calls tlv_next with NULL and then with each record handed out until the result
is NULL or an error.  The result lists the offsets of the records handed out
and the value that ended the iteration; prev is the record handed out last,
the first argument bounds the number of calls, none is returned when it is
used up. -/
def tlv_iterate (mem : Mem) : Nat → Option Nat → Option (List Nat × TlvPtr)
  | 0, _ => none
  | fuel + 1, prev =>
    match tlv_next mem prev with
    | TlvPtr.ptr t => (tlv_iterate mem fuel (some t)).map (fun r => (t :: r.1, r.2))
    | TlvPtr.null => some ([], TlvPtr.null)
    | TlvPtr.err code => some ([], TlvPtr.err code)

/-- The bytes a signature is made over: the first 12 + length_tlv bytes of the
blob, header and record section, with the two bytes of the length_sig field
read as zero. -/
def signed_region (mem : Mem) : List Nat :=
  (List.range (TLV_HEADER_SIZE + length_tlv mem)).map
    (fun i => if i = 8 ∨ i = 9 then 0 else byte mem i)

/-- The environment env with another digest function. -/
def env_with_digest (env : Env) (digest : List Nat → List Nat) : Env :=
  ⟨env.SIZE_MAX, env.CONFIG_TLV_SIGNATURE, env.digest_alloc_by_algo, digest,
    env.public_key_verify⟩

/-- A 64-bit platform with signature support whose verify primitive accepts
exactly the keys with material 1. -/
def exEnv : Env :=
  ⟨2 ^ 64 - 1, true, DigestPtr.valid, fun d => d,
    fun key _ _ _ _ => if key.material = 1 then 0 else -1⟩

/-- A decoder with one table that maps tag 1 to a handler collecting the value
bytes, and no keyring. -/
def exDecoder : tlv_decoder (List Nat) :=
  ⟨[[⟨1, fun dev len val mem => (0, dev ++ readBytes mem val len)⟩]], none⟩

/-- The same decoder asking for signatures of the keyring "board". -/
def exDecoderSigned : tlv_decoder (List Nat) :=
  ⟨[[⟨1, fun dev len val mem => (0, dev ++ readBytes mem val len)⟩]], some "board"⟩

/-- Unsigned blob with one record (tag 1, value AA BB CC DD) and a correct CRC. -/
def exBlob : Mem :=
  memOfList [0x12, 0x34, 0x56, 0x78, 0, 0, 0, 8, 0, 0, 0, 0,
    0, 1, 0, 4, 0xAA, 0xBB, 0xCC, 0xDD, 0x5E, 0xB4, 0xAF, 0x88]

/-- The same blob with a wrong CRC. -/
def exBlobBad : Mem :=
  memOfList [0x12, 0x34, 0x56, 0x78, 0, 0, 0, 8, 0, 0, 0, 0,
    0, 1, 0, 4, 0xAA, 0xBB, 0xCC, 0xDD, 0, 0, 0, 0]

/-- Unsigned blob with length_tlv = 12: a good record (tag 1, 4 value bytes)
followed by a record prefix announcing 8 value bytes, which do not fit; the
CRC is correct. -/
def exBlobMalformed : Mem :=
  memOfList [0x12, 0x34, 0x56, 0x78, 0, 0, 0, 12, 0, 0, 0, 0,
    0, 1, 0, 4, 0xAA, 0xBB, 0xCC, 0xDD, 0, 2, 0, 8, 0xF8, 0xF0, 0x47, 0x2E]

/-- Signed blob: one record (tag 1, value AA BB CC DD), length_sig = 6, the
fingerprint 01 02 03 04, two signature bytes, and a correct CRC. -/
def exBlobSigned : Mem :=
  memOfList [0x12, 0x34, 0x56, 0x78, 0, 0, 0, 8, 0, 6, 0, 0,
    0, 1, 0, 4, 0xAA, 0xBB, 0xCC, 0xDD, 1, 2, 3, 4, 0x55, 0x66, 0xED, 0x93, 0xD4, 0x2D]

/-- A key of keyring "board" with fingerprint 01 02 03 04 that the primitive of
exEnv accepts. -/
def exKeyGood : public_key := ⟨"good", some "board", [1, 2, 3, 4, 9, 9], 1⟩

/-- A key of keyring "board" with the same fingerprint that the primitive of
exEnv rejects. -/
def exKeyWrong : public_key := ⟨"wrong", some "board", [1, 2, 3, 4, 7, 7], 0⟩

/-- A key the primitive accepts, with the same fingerprint, of keyring "other". -/
def exKeyOther : public_key := ⟨"other", some "other", [1, 2, 3, 4, 9, 9], 1⟩

/-- A 32-bit platform (SIZE_MAX = 2^32 - 1) with the same library as exEnv. -/
def exEnv32 : Env :=
  ⟨2 ^ 32 - 1, true, DigestPtr.valid, fun d => d,
    fun key _ _ _ _ => if key.material = 1 then 0 else -1⟩

/-- A header announcing 0xFFFFFFFF record bytes. -/
def exBlobOverflow : Mem :=
  memOfList [0x12, 0x34, 0x56, 0x78, 0xFF, 0xFF, 0xFF, 0xFF, 0, 0, 0, 0]

/-- Unsigned blob with four records: (tag 2, value 11 22), (tag 1, value
AA BB CC DD), (tag 7, no value), (tag 0, no value); length_tlv = 22, correct
CRC. -/
def exBlobFour : Mem :=
  memOfList [0x12, 0x34, 0x56, 0x78, 0, 0, 0, 22, 0, 0, 0, 0,
    0, 2, 0, 2, 0x11, 0x22, 0, 1, 0, 4, 0xAA, 0xBB, 0xCC, 0xDD, 0, 7, 0, 0, 0, 0, 0, 0,
    0x90, 0xB4, 0x00, 0x60]

/-- A mapping entry for tag 1 whose handler collects the value bytes. -/
def exMapCollect : tlv_mapping (List Nat) :=
  ⟨1, fun dev len val mem => (0, dev ++ readBytes mem val len)⟩

/-- A mapping entry for tag 2 whose handler collects the length and returns 5. -/
def exMapLen : tlv_mapping (List Nat) := ⟨2, fun dev len _ _ => (5, dev ++ [len])⟩

/-- A mapping entry for tag 1 whose handler fails with -5. -/
def exMapFail : tlv_mapping (List Nat) := ⟨1, fun dev _ _ _ => (-5, dev)⟩

/-- A decoder with two tables and no keyring: the first table maps tag 1 to a
handler collecting the value bytes; the second maps tag 2 to a handler
collecting the length and returning 5, and tag 1 to a handler that fails. -/
def exDecoderTwo : tlv_decoder (List Nat) :=
  ⟨[[exMapCollect], [exMapLen, exMapFail]], none⟩

/-- A decoder with one table and no keyring whose handler for tag 1 fails with
-5 and whose handler for tag 2 collects the length and returns 5. -/
def exDecoderFail : tlv_decoder (List Nat) := ⟨[[exMapFail, exMapLen]], none⟩

/-- Blob with length_sig = 2: one record, a two-byte signature block 55 66
and a correct CRC 9A BB DD BB, so that the four bytes after the record section
are 55 66 9A BB. -/
def exBlobSigShort : Mem :=
  memOfList [0x12, 0x34, 0x56, 0x78, 0, 0, 0, 8, 0, 2, 0, 0,
    0, 1, 0, 4, 0xAA, 0xBB, 0xCC, 0xDD, 0x55, 0x66, 0x9A, 0xBB, 0xDD, 0xBB]

/-- A key of keyring "board" whose fingerprint is 55 66 9A BB. -/
def exKeyShort : public_key := ⟨"short", some "board", [0x55, 0x66, 0x9A, 0xBB], 1⟩

/-- A 64-bit platform whose digest is the identity and whose verify primitive
accepts a signature exactly when the hash it is given is the header and record
section of exBlobSigned with the length_sig bytes zero. -/
def exEnvDigest : Env :=
  ⟨2 ^ 64 - 1, true, DigestPtr.valid, fun d => d,
    fun _ _ _ _ hash =>
      if hash = [0x12, 0x34, 0x56, 0x78, 0, 0, 0, 8, 0, 0, 0, 0, 0, 1, 0, 4, 0xAA, 0xBB, 0xCC,
        0xDD] then 0 else -1⟩

/-! # Properties -/

/-! ## Iterator lemmas -/

theorem tlv_next_eq (mem : Mem) (prev : Option Nat) :
    tlv_next mem prev =
      if next_pos mem prev = tlvs_end mem then TlvPtr.null
      else if next_pos mem prev + 4 + TLV_LEN mem (next_pos mem prev) > tlvs_end mem then
        TlvPtr.err (-ENODATA)
      else TlvPtr.ptr (next_pos mem prev) := by
  cases prev <;> rfl

theorem tlv_next_ptr_iff (mem : Mem) (prev : Option Nat) (s : Nat) :
    tlv_next mem prev = TlvPtr.ptr s ↔
      s = next_pos mem prev ∧ s + 4 + TLV_LEN mem s ≤ tlvs_end mem := by
  rw [tlv_next_eq]
  constructor
  · intro h
    split at h
    · cases h
    · split at h
      · cases h
      · injection h with h
        subst h
        exact ⟨rfl, by omega⟩
  · rintro ⟨rfl, h⟩
    have h1 : next_pos mem prev ≠ tlvs_end mem := by omega
    have h2 : ¬ next_pos mem prev + 4 + TLV_LEN mem (next_pos mem prev) > tlvs_end mem := by omega
    rw [if_neg h1, if_neg h2]

theorem records_bound (mem : Mem) (ts : List Nat) :
    ∀ off stop, Records mem off ts stop → off ≤ tlvs_end mem →
      off + 4 * ts.length ≤ stop ∧ stop ≤ tlvs_end mem := by
  induction ts with
  | nil =>
    intro off stop h hle
    simp only [Records] at h
    subst h
    exact ⟨by simp, hle⟩
  | cons t ts ih =>
    intro off stop h hle
    obtain ⟨_, hfit, hrest⟩ := h
    obtain ⟨h1, h2⟩ := ih _ _ hrest hfit
    refine ⟨?_, h2⟩
    simp only [List.length_cons]
    omega

/-! ## The record loop -/

theorem parse_loop_records {σ : Type} (decoder : tlv_decoder σ) (mem : Mem) (ts : List Nat) :
    ∀ (prev : Option Nat) (fuel : Nat) (dev : σ) (log : List Event) (dev' : σ)
      (log' : List Event) (stop : Nat),
      Records mem (next_pos mem prev) ts stop → ts.length < fuel →
      dispatch_records decoder mem ts dev log = some (dev', log') →
      (stop = tlvs_end mem ∨ stop + 4 + TLV_LEN mem stop > tlvs_end mem) →
      tlv_parse_loop decoder mem fuel (tlv_next mem prev) dev log =
        some ⟨if stop = tlvs_end mem then 0 else -ENODATA, mem, dev', log'⟩ := by
  induction ts with
  | nil =>
    intro prev fuel dev log dev' log' stop hrec hfuel hdisp hstop
    simp only [Records] at hrec
    simp only [dispatch_records, Option.some.injEq, Prod.mk.injEq] at hdisp
    obtain ⟨rfl, rfl⟩ := hdisp
    obtain ⟨fuel, rfl⟩ : ∃ f, fuel = f + 1 := ⟨fuel - 1, by simp at hfuel; omega⟩
    rw [tlv_next_eq, hrec]
    by_cases he : stop = tlvs_end mem
    · simp only [if_pos he, tlv_parse_loop]
    · have h2 : stop + 4 + TLV_LEN mem stop > tlvs_end mem := by
        rcases hstop with h | h
        · exact absurd h he
        · exact h
      simp only [if_neg he, if_pos h2, tlv_parse_loop]
  | cons t ts ih =>
    intro prev fuel dev log dev' log' stop hrec hfuel hdisp hstop
    obtain ⟨ht, hfit, hrest⟩ := hrec
    obtain ⟨fuel, rfl⟩ : ∃ f, fuel = f + 1 := ⟨fuel - 1, by simp at hfuel; omega⟩
    have hptr : tlv_next mem prev = TlvPtr.ptr t :=
      (tlv_next_ptr_iff mem prev t).2 ⟨ht, by rw [ht]; exact hfit⟩
    rw [hptr]
    have hnext : next_pos mem (some t) = next_pos mem prev + 4 + TLV_LEN mem (next_pos mem prev) := by
      rw [← ht]; rfl
    rw [← hnext] at hrest
    have hfuel' : ts.length < fuel := by simp only [List.length_cons] at hfuel; omega
    simp only [dispatch_records] at hdisp
    simp only [tlv_parse_loop, TLV_VAL]
    cases hs : search_mappings (TLV_TAG mem t) decoder.mappings 0 with
    | none =>
      rw [hs] at hdisp
      simp only at hdisp ⊢
      exact ih (some t) fuel dev _ dev' log' stop hrest hfuel' hdisp hstop
    | some found =>
      obtain ⟨ti, i, map⟩ := found
      rw [hs] at hdisp
      simp only at hdisp ⊢
      by_cases hneg : (map.handle dev (TLV_LEN mem t) (t + 4) mem).1 < 0
      · rw [if_pos hneg] at hdisp
        cases hdisp
      · rw [if_neg hneg] at hdisp
        rw [if_neg hneg]
        exact ih (some t) fuel _ _ dev' log' stop hrest hfuel' hdisp hstop

/-! ## Signature verification lemmas -/

theorem in_keyring_iff (key : public_key) (keyring : String) :
    in_keyring key keyring = true ↔ key.keyring = some keyring := by
  unfold in_keyring
  cases key.keyring with
  | none => simp
  | some name => simp

theorem verify_loop_ret (env : Env) (mem : Mem) (keyring : String)
    (payload_sz spki_tlv sig_len : Nat) (keys : List public_key) :
    ∀ (count : Nat) (log : List Event),
      ((tlv_verify_loop env mem keyring payload_sz spki_tlv sig_len keys count log).ret = 0 ↔
        ∃ k ∈ keys, k.keyring = some keyring ∧ spki_of_key k = spki_tlv ∧
          tlv_verify_try_key env k mem (payload_sz + 4) (u32_sub sig_len 4)
            payload_sz = 0) ∧
      ((tlv_verify_loop env mem keyring payload_sz spki_tlv sig_len keys count log).ret = -ENOKEY ↔
        count = 0 ∧ ∀ k ∈ keys, ¬ (k.keyring = some keyring ∧ spki_of_key k = spki_tlv)) ∧
      ((tlv_verify_loop env mem keyring payload_sz spki_tlv sig_len keys count log).ret = -EINVAL ↔
        (count ≠ 0 ∨ ∃ k ∈ keys, k.keyring = some keyring ∧ spki_of_key k = spki_tlv) ∧
        ∀ k ∈ keys, k.keyring = some keyring → spki_of_key k = spki_tlv →
          tlv_verify_try_key env k mem (payload_sz + 4) (u32_sub sig_len 4)
            payload_sz ≠ 0) := by
  induction keys with
  | nil =>
    intro count log
    simp only [tlv_verify_loop]
    by_cases hc : count = 0
    · simp [hc, ENOKEY, EINVAL]
    · simp [hc, ENOKEY, EINVAL]
  | cons key rest ih =>
    intro count log
    simp only [tlv_verify_loop]
    by_cases hk : in_keyring key keyring = false
    · have hk' : key.keyring ≠ some keyring := by
        intro h
        rw [(in_keyring_iff key keyring).2 h] at hk
        cases hk
      simp only [if_pos hk]
      obtain ⟨h0, h1, h2⟩ := ih count log
      rw [h0, h1, h2]
      simp [hk']
    · simp only [if_neg hk]
      have hk' : key.keyring = some keyring :=
        (in_keyring_iff key keyring).1 (by simpa using hk)
      by_cases hs : spki_of_key key = spki_tlv
      · simp only [if_pos hs]
        by_cases hr : tlv_verify_try_key env key mem (payload_sz + 4)
            (u32_sub sig_len 4) payload_sz = 0
        · simp only [if_pos hr]
          refine ⟨?_, ?_, ?_⟩
          · simp only [true_iff]
            exact ⟨key, List.mem_cons_self _ _, hk', hs, hr⟩
          · constructor
            · intro h; cases h
            · rintro ⟨_, h⟩
              exact absurd ⟨hk', hs⟩ (h key (List.mem_cons_self _ _))
          · constructor
            · intro h; cases h
            · rintro ⟨_, h⟩
              exact absurd hr (h key (List.mem_cons_self _ _) hk' hs)
        · simp only [if_neg hr]
          obtain ⟨h0, h1, h2⟩ := ih (count + 1) _
          rw [h0, h1, h2]
          refine ⟨?_, ?_, ?_⟩
          · simp [hr]
          · simp [hk', hs]
          · simp [hk', hs, hr]
      · simp only [if_neg hs]
        obtain ⟨h0, h1, h2⟩ := ih count log
        rw [h0, h1, h2]
        simp [hs]

theorem verify_loop_mem (env : Env) (mem : Mem) (keyring : String)
    (payload_sz spki_tlv sig_len : Nat) (keys : List public_key) :
    ∀ (count : Nat) (log : List Event),
      (tlv_verify_loop env mem keyring payload_sz spki_tlv sig_len keys count log).mem =
        if (tlv_verify_loop env mem keyring payload_sz spki_tlv sig_len keys count log).ret = 0
        then mem else put_unaligned_be16 sig_len mem OFF_LENGTH_SIG := by
  induction keys with
  | nil =>
    intro count log
    simp only [tlv_verify_loop]
    by_cases hc : count = 0
    · simp [hc, ENOKEY]
    · simp [hc, EINVAL]
  | cons key rest ih =>
    intro count log
    simp only [tlv_verify_loop]
    split
    · exact ih _ _
    · split
      · split
        · simp
        · exact ih _ _
      · exact ih _ _

theorem verify_loop_log (env : Env) (mem : Mem) (keyring : String)
    (payload_sz spki_tlv sig_len : Nat) (keys : List public_key) :
    ∀ (count : Nat) (log : List Event),
      ((tlv_verify_loop env mem keyring payload_sz spki_tlv sig_len keys count log).log).filter
          Event.is_handle = log.filter Event.is_handle := by
  induction keys with
  | nil =>
    intro count log
    simp only [tlv_verify_loop]
    split <;> simp [Event.is_handle]
  | cons key rest ih =>
    intro count log
    simp only [tlv_verify_loop]
    split
    · exact ih _ _
    · split
      · split
        · simp [Event.is_handle]
        · rw [ih]; simp [Event.is_handle]
      · exact ih _ _

theorem put_be16_frame (v : Nat) (mem : Mem) (off i : Nat) (h1 : i ≠ off) (h2 : i ≠ off + 1) :
    put_unaligned_be16 v mem off i = mem i := by
  simp [put_unaligned_be16, store8, h1, h2]

theorem tlv_verify_frame (env : Env) (keys : List public_key) (mem : Mem) (keyring : String)
    (i : Nat) (h8 : i ≠ 8) (h9 : i ≠ 9) :
    (tlv_verify env keys mem keyring).mem i = mem i := by
  unfold tlv_verify
  simp only
  split
  · rfl
  · split
    · rfl
    · rw [verify_loop_mem]
      split
      · exact put_be16_frame _ _ OFF_LENGTH_SIG i h8 h9
      · exact (put_be16_frame _ _ OFF_LENGTH_SIG i h8 h9).trans
          (put_be16_frame _ _ OFF_LENGTH_SIG i h8 h9)

theorem tlv_verify_log (env : Env) (keys : List public_key) (mem : Mem) (keyring : String) :
    ((tlv_verify env keys mem keyring).log).filter Event.is_handle = [] := by
  unfold tlv_verify
  simp only
  split
  · rfl
  · split
    · rfl
    · rw [verify_loop_log]; rfl

/-! ## Blobs that differ in the length_sig field only -/

theorem byte_agree (m1 m2 : Mem) (h : ∀ i, i ≠ 8 → i ≠ 9 → m1 i = m2 i) (i : Nat)
    (h8 : i ≠ 8) (h9 : i ≠ 9) : byte m1 i = byte m2 i := by
  unfold byte
  rw [h i h8 h9]

theorem length_tlv_agree (m1 m2 : Mem) (h : ∀ i, i ≠ 8 → i ≠ 9 → m1 i = m2 i) :
    length_tlv m1 = length_tlv m2 := by
  simp only [length_tlv, get_unaligned_be32, OFF_LENGTH_TLV]
  rw [byte_agree m1 m2 h 4 (by decide) (by decide), byte_agree m1 m2 h 5 (by decide) (by decide),
    byte_agree m1 m2 h 6 (by decide) (by decide), byte_agree m1 m2 h 7 (by decide) (by decide)]

theorem tlvs_end_agree (m1 m2 : Mem) (h : ∀ i, i ≠ 8 → i ≠ 9 → m1 i = m2 i) :
    tlvs_end m1 = tlvs_end m2 := by
  simp only [tlvs_end, length_tlv_agree m1 m2 h]

theorem TLV_LEN_agree (m1 m2 : Mem) (h : ∀ i, i ≠ 8 → i ≠ 9 → m1 i = m2 i) (off : Nat)
    (hoff : 12 ≤ off) : TLV_LEN m1 off = TLV_LEN m2 off := by
  simp only [TLV_LEN, get_unaligned_be16]
  rw [byte_agree m1 m2 h (off + 2) (by omega) (by omega),
    byte_agree m1 m2 h (off + 2 + 1) (by omega) (by omega)]

theorem TLV_TAG_agree (m1 m2 : Mem) (h : ∀ i, i ≠ 8 → i ≠ 9 → m1 i = m2 i) (off : Nat)
    (hoff : 12 ≤ off) : TLV_TAG m1 off = TLV_TAG m2 off := by
  simp only [TLV_TAG, get_unaligned_be16]
  rw [byte_agree m1 m2 h off (by omega) (by omega),
    byte_agree m1 m2 h (off + 1) (by omega) (by omega)]

theorem records_agree (m1 m2 : Mem) (h : ∀ i, i ≠ 8 → i ≠ 9 → m1 i = m2 i) (ts : List Nat) :
    ∀ off stop, 12 ≤ off → Records m1 off ts stop → Records m2 off ts stop := by
  induction ts with
  | nil => intro off stop _ hr; exact hr
  | cons t ts ih =>
    intro off stop hoff hr
    obtain ⟨ht, hfit, hrest⟩ := hr
    rw [TLV_LEN_agree m1 m2 h off hoff, tlvs_end_agree m1 m2 h] at hfit
    rw [TLV_LEN_agree m1 m2 h off hoff] at hrest
    exact ⟨ht, hfit, ih _ _ (by omega) hrest⟩

theorem records_ge (mem : Mem) (ts : List Nat) :
    ∀ off stop, Records mem off ts stop → (off ≤ stop ∧ ∀ t ∈ ts, off ≤ t) := by
  induction ts with
  | nil =>
    intro off stop h
    simp only [Records] at h
    subst h
    exact ⟨Nat.le_refl _, by simp⟩
  | cons t ts ih =>
    intro off stop h
    obtain ⟨ht, _, hrest⟩ := h
    obtain ⟨h1, h2⟩ := ih _ _ hrest
    refine ⟨by omega, ?_⟩
    intro u hu
    rcases List.mem_cons.1 hu with rfl | hu
    · omega
    · have := h2 u hu
      omega

theorem mem_for_dispatch_agree {σ : Type} (env : Env) (keys : List public_key)
    (decoder : tlv_decoder σ) (mem : Mem) :
    ∀ i, i ≠ 8 → i ≠ 9 → mem i = mem_for_dispatch env keys decoder mem i := by
  intro i h8 h9
  unfold mem_for_dispatch
  cases decoder.signature_keyring with
  | none => rfl
  | some keyring => exact (tlv_verify_frame env keys mem keyring i h8 h9).symm

/-! ## tlv_parse once the checks have passed -/

theorem tlv_parse_of_checks {σ : Type} (env : Env) (keys : List public_key)
    (decoder : tlv_decoder σ) (mem : Mem) (dev : σ) (h : ChecksPass env keys decoder mem) :
    tlv_parse env keys decoder mem dev =
      tlv_parse_loop decoder (mem_for_dispatch env keys decoder mem)
        (length_tlv (mem_for_dispatch env keys decoder mem) / 4 + 1)
        (tlv_next (mem_for_dispatch env keys decoder mem) none) dev
        (log_before_dispatch env keys decoder mem) := by
  obtain ⟨hsize, hcrc, hver⟩ := h
  unfold tlv_parse mem_for_dispatch log_before_dispatch
  simp only [if_neg hsize, hcrc, ne_eq, not_true_eq_false, if_false]
  cases hk : decoder.signature_keyring with
  | none => rfl
  | some keyring =>
    simp only [hver keyring hk, not_true_eq_false, if_false, List.append_assoc,
      List.singleton_append, List.cons_append, List.nil_append]

theorem tlv_parse_records {σ : Type} (env : Env) (keys : List public_key)
    (decoder : tlv_decoder σ) (mem : Mem) (dev : σ) (ts : List Nat) (stop : Nat)
    (dev' : σ) (log' : List Event)
    (hchecks : ChecksPass env keys decoder mem)
    (hrec : Records mem TLV_HEADER_SIZE ts stop)
    (hstop : stop = tlvs_end mem ∨ stop + 4 + TLV_LEN mem stop > tlvs_end mem)
    (hdisp : dispatch_records decoder (mem_for_dispatch env keys decoder mem) ts dev
      (log_before_dispatch env keys decoder mem) = some (dev', log')) :
    tlv_parse env keys decoder mem dev =
      some ⟨if stop = tlvs_end mem then 0 else -ENODATA,
        mem_for_dispatch env keys decoder mem, dev', log'⟩ := by
  have hag := mem_for_dispatch_agree env keys decoder mem
  have hend := tlvs_end_agree _ _ hag
  have hrec' := records_agree _ _ hag ts _ _ (Nat.le_refl 12) hrec
  have hle : TLV_HEADER_SIZE ≤ tlvs_end (mem_for_dispatch env keys decoder mem) := by
    unfold tlvs_end; omega
  obtain ⟨hb1, hb2⟩ := records_bound _ ts _ _ hrec' hle
  have hstop12 : 12 ≤ stop := (records_ge _ ts _ _ hrec).1
  rw [tlv_parse_of_checks env keys decoder mem dev hchecks, hend]
  refine parse_loop_records decoder _ ts none _ dev _ dev' log' stop hrec' ?_ hdisp ?_
  · have h12 : TLV_HEADER_SIZE = 12 := rfl
    unfold tlvs_end at hb2
    rw [h12] at hb2
    omega
  · rw [← hend, ← TLV_LEN_agree _ _ hag stop hstop12]
    exact hstop

/-! ## Handler calls stay inside the record section -/

theorem search_table_some {σ : Type} (tag : Nat) (table : List (tlv_mapping σ)) :
    ∀ (i0 i : Nat) (map : tlv_mapping σ), search_table tag table i0 = some (i, map) →
      map ∈ table ∧ map.tag = tag ∧ tag ≠ 0 := by
  induction table with
  | nil => intro i0 i map h; simp [search_table] at h
  | cons m rest ih =>
    intro i0 i map h
    simp only [search_table] at h
    split at h
    · cases h
    · rename_i hz
      split at h
      · rename_i ht
        simp only [Option.some.injEq, Prod.mk.injEq] at h
        obtain ⟨_, rfl⟩ := h
        exact ⟨List.mem_cons_self _ _, ht, by rw [← ht]; exact hz⟩
      · obtain ⟨h1, h2⟩ := ih _ _ _ h
        exact ⟨List.mem_cons_of_mem _ h1, h2⟩

theorem search_mappings_some {σ : Type} (tag : Nat) (tables : List (List (tlv_mapping σ))) :
    ∀ (t0 ti i : Nat) (map : tlv_mapping σ), search_mappings tag tables t0 = some (ti, i, map) →
      (∃ table ∈ tables, map ∈ table) ∧ map.tag = tag ∧ tag ≠ 0 := by
  induction tables with
  | nil => intro t0 ti i map h; simp [search_mappings] at h
  | cons table rest ih =>
    intro t0 ti i map h
    simp only [search_mappings] at h
    split at h
    · rename_i j m hs
      simp only [Option.some.injEq, Prod.mk.injEq] at h
      obtain ⟨_, _, rfl⟩ := h
      obtain ⟨h1, h2⟩ := search_table_some tag table 0 j m hs
      exact ⟨⟨table, List.mem_cons_self _ _, h1⟩, h2⟩
    · obtain ⟨⟨tb, htb, hm⟩, h2⟩ := ih _ _ _ _ h
      exact ⟨⟨tb, List.mem_cons_of_mem _ htb, hm⟩, h2⟩

theorem handler_call_zero_tag {σ : Type} (decoder : tlv_decoder σ) (mem : Mem) (t : Nat)
    (h : TLV_TAG mem t = 0) : handler_call decoder mem t = none := by
  unfold handler_call
  cases hs : search_mappings (TLV_TAG mem t) decoder.mappings 0 with
  | none => rfl
  | some found =>
    obtain ⟨ti, i, map⟩ := found
    exact absurd h (search_mappings_some _ _ _ _ _ _ hs).2.2

theorem dispatch_nonneg {σ : Type} (decoder : tlv_decoder σ) (mem : Mem)
    (hnn : HandlersNonneg decoder) (ts : List Nat) :
    ∀ (dev : σ) (log : List Event), ∃ dev' log',
      dispatch_records decoder mem ts dev log = some (dev', log') ∧
      log'.filter Event.is_handle =
        log.filter Event.is_handle ++ ts.filterMap (handler_call decoder mem) := by
  induction ts with
  | nil =>
    intro dev log
    exact ⟨dev, log, rfl, by simp⟩
  | cons t ts ih =>
    intro dev log
    simp only [dispatch_records, List.filterMap_cons, handler_call]
    cases hs : search_mappings (TLV_TAG mem t) decoder.mappings 0 with
    | none =>
      simp only
      obtain ⟨dev', log', h1, h2⟩ := ih dev
        (if TLV_TAG mem t ≠ 0 then log ++ [Event.warn_unknown_tag (TLV_TAG mem t)] else log)
      refine ⟨dev', log', h1, ?_⟩
      rw [h2]
      split <;> simp [Event.is_handle, handler_call]
    | some found =>
      obtain ⟨ti, i, map⟩ := found
      obtain ⟨⟨table, htab, hmap⟩, _⟩ := search_mappings_some _ _ _ _ _ _ hs
      have hge := hnn table htab map hmap dev (TLV_LEN mem t) (t + 4) mem
      simp only [if_neg (not_lt.2 hge)]
      obtain ⟨dev', log', h1, h2⟩ := ih (map.handle dev (TLV_LEN mem t) (t + 4) mem).2
        (log ++ [Event.handle ti i (TLV_LEN mem t) (t + 4)])
      refine ⟨dev', log', h1, ?_⟩
      rw [h2]
      simp [Event.is_handle, handler_call]

theorem verify_loop_skip (env : Env) (mem : Mem) (keyring : String)
    (payload_sz spki_tlv sig_len : Nat) (k : public_key) (hk : k.keyring ≠ some keyring)
    (l1 l2 : List public_key) :
    ∀ (count : Nat) (log : List Event),
      tlv_verify_loop env mem keyring payload_sz spki_tlv sig_len (l1 ++ k :: l2) count log =
        tlv_verify_loop env mem keyring payload_sz spki_tlv sig_len (l1 ++ l2) count log := by
  have hk' : in_keyring k keyring = false := by
    cases h : in_keyring k keyring with
    | false => rfl
    | true => exact absurd ((in_keyring_iff k keyring).1 h) hk
  induction l1 with
  | nil =>
    intro count log
    simp only [List.nil_append, tlv_verify_loop, if_pos hk']
  | cons a l1 ih =>
    intro count log
    simp only [List.cons_append, tlv_verify_loop]
    split
    · exact ih _ _
    · split
      · split
        · rfl
        · exact ih _ _
      · exact ih _ _

theorem tlv_total_len_agree (size_max : Nat) (m1 m2 : Mem) (h : ∀ i, i < 12 → m1 i = m2 i) :
    tlv_total_len size_max m1 = tlv_total_len size_max m2 := by
  have hb : ∀ i, i < 12 → byte m1 i = byte m2 i := by
    intro i hi
    unfold byte
    rw [h i hi]
  simp only [tlv_total_len, length_tlv, length_sig, get_unaligned_be32, get_unaligned_be16,
    OFF_LENGTH_TLV, OFF_LENGTH_SIG]
  rw [hb 4 (by decide), hb 5 (by decide), hb 6 (by decide), hb 7 (by decide),
    hb 8 (by decide), hb 9 (by decide)]

/-! ## The iteration bound of the record loop is never used up -/

theorem parse_loop_total {σ : Type} (decoder : tlv_decoder σ) (mem : Mem) (fuel : Nat) :
    ∀ (cur : TlvPtr) (dev : σ) (log : List Event),
      (∀ t, cur = TlvPtr.ptr t →
        t + 4 + TLV_LEN mem t ≤ tlvs_end mem ∧ (tlvs_end mem - t) / 4 ≤ fuel) →
      ∃ r, tlv_parse_loop decoder mem (fuel + 1) cur dev log = some r := by
  induction fuel with
  | zero =>
    intro cur dev log hcur
    cases cur with
    | null => exact ⟨_, rfl⟩
    | err code => exact ⟨_, rfl⟩
    | ptr t =>
      obtain ⟨h1, h2⟩ := hcur t rfl
      omega
  | succ fuel ih =>
    intro cur dev log hcur
    cases cur with
    | null => exact ⟨_, rfl⟩
    | err code => exact ⟨_, rfl⟩
    | ptr t =>
      obtain ⟨h1, h2⟩ := hcur t rfl
      have hnext : ∀ s, tlv_next mem (some t) = TlvPtr.ptr s →
          s + 4 + TLV_LEN mem s ≤ tlvs_end mem ∧ (tlvs_end mem - s) / 4 ≤ fuel := by
        intro s hs
        obtain ⟨e1, e2⟩ := (tlv_next_ptr_iff mem (some t) s).1 hs
        refine ⟨e2, ?_⟩
        simp only [next_pos, __tlv_next] at e1
        omega
      simp only [tlv_parse_loop, TLV_VAL]
      cases search_mappings (TLV_TAG mem t) decoder.mappings 0 with
      | none => exact ih _ _ _ hnext
      | some found =>
        obtain ⟨tj, j, map⟩ := found
        simp only
        split
        · exact ⟨_, rfl⟩
        · exact ih _ _ _ hnext

theorem parse_loop_start_total {σ : Type} (decoder : tlv_decoder σ) (mem : Mem) (dev : σ)
    (log : List Event) :
    ∃ r, tlv_parse_loop decoder mem (length_tlv mem / 4 + 1) (tlv_next mem none) dev log
      = some r := by
  refine parse_loop_total decoder mem _ _ dev log ?_
  intro t ht
  obtain ⟨e1, e2⟩ := (tlv_next_ptr_iff mem none t).1 ht
  refine ⟨e2, ?_⟩
  have : t = TLV_HEADER_SIZE := e1
  subst this
  unfold tlvs_end
  simp

theorem tlv_parse_total {σ : Type} (env : Env) (keys : List public_key)
    (decoder : tlv_decoder σ) (mem : Mem) (dev : σ) :
    ∃ r, tlv_parse env keys decoder mem dev = some r := by
  unfold tlv_parse
  simp only
  split
  · exact ⟨_, rfl⟩
  · split
    · exact ⟨_, rfl⟩
    · split
      · split
        · exact ⟨_, rfl⟩
        · exact parse_loop_start_total decoder _ dev _
      · exact parse_loop_start_total decoder _ dev _

/-! ## Claims -/

/-- C1: when the total size does not overflow and the stored trailing CRC
differs from crc32_be seeded with 0xFFFFFFFF over the bytes before it,
tlv_parse returns -EILSEQ, the blob and the device state are untouched, and
the only events are the CRC computation and the warning: no handler call, no
call of tlv_verify, no key tried. -/
theorem tlv_parse_crc_mismatch {σ : Type} (env : Env) (keys : List public_key)
    (decoder : tlv_decoder σ) (mem : Mem) (dev : σ)
    (hsize : tlv_total_len env.SIZE_MAX mem ≠ env.SIZE_MAX)
    (hcrc : tlv_crc env.SIZE_MAX mem ≠
      crc32_be 0xFFFFFFFF (readBytes mem 0 (tlv_total_len env.SIZE_MAX mem - 4))) :
    tlv_parse env keys decoder mem dev =
      some ⟨-EILSEQ, mem, dev,
        [Event.crc32_be_call (tlv_total_len env.SIZE_MAX mem - 4),
         Event.warn_crc (crc32_be 0xFFFFFFFF
           (readBytes mem 0 (tlv_total_len env.SIZE_MAX mem - 4)))]⟩ := by
  unfold tlv_parse
  simp only [if_neg hsize, if_pos (Ne.symm hcrc)]
  rfl

set_option maxRecDepth 20000 in
theorem tlv_parse_crc_mismatch_witness :
    tlv_total_len exEnv.SIZE_MAX exBlobBad ≠ exEnv.SIZE_MAX ∧
    tlv_crc exEnv.SIZE_MAX exBlobBad ≠
      crc32_be 0xFFFFFFFF (readBytes exBlobBad 0 (tlv_total_len exEnv.SIZE_MAX exBlobBad - 4)) ∧
    tlv_parse exEnv [exKeyGood] exDecoderSigned exBlobBad [] =
      some ⟨-EILSEQ, exBlobBad, [],
        [Event.crc32_be_call (tlv_total_len exEnv.SIZE_MAX exBlobBad - 4),
         Event.warn_crc (crc32_be 0xFFFFFFFF
           (readBytes exBlobBad 0 (tlv_total_len exEnv.SIZE_MAX exBlobBad - 4)))]⟩ :=
  ⟨by decide, by decide,
   tlv_parse_crc_mismatch exEnv [exKeyGood] exDecoderSigned exBlobBad [] (by decide) (by decide)⟩

/-- C4: with signature support enabled and a non-zero length_sig field,
tlv_verify returns 0 exactly when some key of the list has the requested
keyring name, a little-endian fingerprint equal to the one stored right after
the record section, and a successful verification attempt.  The order of the
key list does not matter for that: two lists with the same members succeed or
fail together, so a wrong key with a colliding fingerprint does not hide the
right one. -/
theorem tlv_verify_success_iff (env : Env) (keys : List public_key) (mem : Mem)
    (keyring : String) (hen : env.CONFIG_TLV_SIGNATURE = true) (hsig : length_sig mem ≠ 0) :
    ((tlv_verify env keys mem keyring).ret = 0 ↔
      ∃ k ∈ keys, k.keyring = some keyring ∧
        spki_of_key k = get_unaligned_le32 mem (TLV_HEADER_SIZE + length_tlv mem) ∧
        tlv_verify_try_key env k (put_unaligned_be16 0 mem OFF_LENGTH_SIG)
          (TLV_HEADER_SIZE + length_tlv mem + 4) (u32_sub (length_sig mem) 4)
          (TLV_HEADER_SIZE + length_tlv mem) = 0) ∧
    (∀ keys' : List public_key, (∀ k, k ∈ keys' ↔ k ∈ keys) →
      ((tlv_verify env keys' mem keyring).ret = 0 ↔ (tlv_verify env keys mem keyring).ret = 0)) := by
  have hen' : ¬ env.CONFIG_TLV_SIGNATURE = false := by rw [hen]; decide
  have hsig' : ¬ get_unaligned_be16 mem OFF_LENGTH_SIG = 0 := hsig
  have key : ∀ ks : List public_key, ((tlv_verify env ks mem keyring).ret = 0 ↔
      ∃ k ∈ ks, k.keyring = some keyring ∧
        spki_of_key k = get_unaligned_le32 mem (TLV_HEADER_SIZE + length_tlv mem) ∧
        tlv_verify_try_key env k (put_unaligned_be16 0 mem OFF_LENGTH_SIG)
          (TLV_HEADER_SIZE + length_tlv mem + 4) (u32_sub (length_sig mem) 4)
          (TLV_HEADER_SIZE + length_tlv mem) = 0) := by
    intro ks
    unfold tlv_verify
    simp only [if_neg hen', if_neg hsig']
    exact (verify_loop_ret env _ keyring _ _ _ ks 0 []).1
  refine ⟨key keys, ?_⟩
  intro keys' hmem
  rw [key keys', key keys]
  constructor
  · rintro ⟨k, hk, h⟩
    exact ⟨k, (hmem k).1 hk, h⟩
  · rintro ⟨k, hk, h⟩
    exact ⟨k, (hmem k).2 hk, h⟩

theorem tlv_verify_success_iff_witness :
    (tlv_verify exEnv [exKeyWrong, exKeyGood] exBlobSigned "board").ret = 0 ∧
    (tlv_verify exEnv [exKeyGood, exKeyWrong] exBlobSigned "board").ret = 0 :=
  have h := tlv_verify_success_iff exEnv [exKeyWrong, exKeyGood] exBlobSigned "board"
    (by decide) (by decide)
  have h0 : (tlv_verify exEnv [exKeyWrong, exKeyGood] exBlobSigned "board").ret = 0 :=
    h.1.2 ⟨exKeyGood, by decide, by decide, by decide, by decide⟩
  ⟨h0, (h.2 [exKeyGood, exKeyWrong] (fun k => by simp [or_comm])).2 h0⟩

/-- C5: with signature support enabled and a non-zero length_sig field,
tlv_verify returns 0, -ENOKEY or -EINVAL; it returns -ENOKEY exactly when no
key of the requested keyring has the blob's fingerprint, and -EINVAL exactly
when some such key exists and the verification attempt fails for every one of
them.  When tlv_verify fails, tlv_parse (size and CRC checks passed, decoder
naming that keyring) returns the same code, and its events contain no handler
call. -/
theorem tlv_verify_failure_code {σ : Type} (env : Env) (keys : List public_key)
    (decoder : tlv_decoder σ) (mem : Mem) (dev : σ) (keyring : String)
    (hen : env.CONFIG_TLV_SIGNATURE = true) (hsig : length_sig mem ≠ 0) :
    ((tlv_verify env keys mem keyring).ret = 0 ∨ (tlv_verify env keys mem keyring).ret = -ENOKEY ∨
      (tlv_verify env keys mem keyring).ret = -EINVAL) ∧
    ((tlv_verify env keys mem keyring).ret = -ENOKEY ↔
      ∀ k ∈ keys, ¬ (k.keyring = some keyring ∧
        spki_of_key k = get_unaligned_le32 mem (TLV_HEADER_SIZE + length_tlv mem))) ∧
    ((tlv_verify env keys mem keyring).ret = -EINVAL ↔
      (∃ k ∈ keys, k.keyring = some keyring ∧
        spki_of_key k = get_unaligned_le32 mem (TLV_HEADER_SIZE + length_tlv mem)) ∧
      ∀ k ∈ keys, k.keyring = some keyring →
        spki_of_key k = get_unaligned_le32 mem (TLV_HEADER_SIZE + length_tlv mem) →
        tlv_verify_try_key env k (put_unaligned_be16 0 mem OFF_LENGTH_SIG)
          (TLV_HEADER_SIZE + length_tlv mem + 4) (u32_sub (length_sig mem) 4)
          (TLV_HEADER_SIZE + length_tlv mem) ≠ 0) ∧
    (tlv_total_len env.SIZE_MAX mem ≠ env.SIZE_MAX →
      crc32_be 0xFFFFFFFF (readBytes mem 0 (tlv_total_len env.SIZE_MAX mem - 4))
        = tlv_crc env.SIZE_MAX mem →
      decoder.signature_keyring = some keyring →
      (tlv_verify env keys mem keyring).ret ≠ 0 →
      ∃ r, tlv_parse env keys decoder mem dev = some r ∧
        r.ret = (tlv_verify env keys mem keyring).ret ∧
        r.log.filter Event.is_handle = []) := by
  have hen' : ¬ env.CONFIG_TLV_SIGNATURE = false := by rw [hen]; decide
  have hsig' : ¬ get_unaligned_be16 mem OFF_LENGTH_SIG = 0 := hsig
  have hv : tlv_verify env keys mem keyring =
      tlv_verify_loop env (put_unaligned_be16 0 mem OFF_LENGTH_SIG) keyring
        (TLV_HEADER_SIZE + length_tlv mem)
        (get_unaligned_le32 mem (TLV_HEADER_SIZE + length_tlv mem)) (length_sig mem) keys 0 [] := by
    unfold tlv_verify
    simp only [if_neg hen', if_neg hsig']
    rfl
  obtain ⟨h0, h1, h2⟩ := verify_loop_ret env (put_unaligned_be16 0 mem OFF_LENGTH_SIG) keyring
    (TLV_HEADER_SIZE + length_tlv mem)
    (get_unaligned_le32 mem (TLV_HEADER_SIZE + length_tlv mem)) (length_sig mem) keys 0 []
  rw [← hv] at h0 h1 h2
  refine ⟨?_, ?_, ?_, ?_⟩
  · by_cases hm : ∃ k ∈ keys, k.keyring = some keyring ∧
        spki_of_key k = get_unaligned_le32 mem (TLV_HEADER_SIZE + length_tlv mem)
    · by_cases hs : ∃ k ∈ keys, k.keyring = some keyring ∧
          spki_of_key k = get_unaligned_le32 mem (TLV_HEADER_SIZE + length_tlv mem) ∧
          tlv_verify_try_key env k (put_unaligned_be16 0 mem OFF_LENGTH_SIG)
            (TLV_HEADER_SIZE + length_tlv mem + 4) (u32_sub (length_sig mem) 4)
            (TLV_HEADER_SIZE + length_tlv mem) = 0
      · exact Or.inl (h0.2 hs)
      · refine Or.inr (Or.inr (h2.2 ⟨Or.inr hm, ?_⟩))
        intro k hk hkr hsp hz
        exact hs ⟨k, hk, hkr, hsp, hz⟩
    · refine Or.inr (Or.inl (h1.2 ⟨rfl, ?_⟩))
      intro k hk hkm
      exact hm ⟨k, hk, hkm⟩
  · rw [h1]
    simp
  · rw [h2]
    simp
  · intro hsize hcrc hkr hret
    refine ⟨⟨(tlv_verify env keys mem keyring).ret, (tlv_verify env keys mem keyring).mem, dev,
      [Event.crc32_be_call (tlv_total_len env.SIZE_MAX mem - 4)] ++ [Event.verify_call keyring]
        ++ (tlv_verify env keys mem keyring).log⟩, ?_, rfl, ?_⟩
    · unfold tlv_parse
      simp only [if_neg hsize, hcrc, ne_eq, not_true_eq_false, if_false, hkr, hret,
        not_false_eq_true, if_true]
    · simp only [List.filter_append, tlv_verify_log]
      rfl

set_option maxRecDepth 20000 in
theorem tlv_verify_failure_code_witness :
    (tlv_verify exEnv [exKeyWrong] exBlobSigned "board").ret = -EINVAL ∧
    ∃ r, tlv_parse exEnv [exKeyWrong] exDecoderSigned exBlobSigned [] = some r ∧
      r.ret = (tlv_verify exEnv [exKeyWrong] exBlobSigned "board").ret ∧
      r.log.filter Event.is_handle = [] :=
  have h := tlv_verify_failure_code exEnv [exKeyWrong] exDecoderSigned exBlobSigned []
    "board" (by decide) (by decide)
  ⟨h.2.2.1.2 ⟨⟨exKeyWrong, by decide, by decide, by decide⟩, by decide⟩,
   h.2.2.2 (by decide) (by decide) rfl (by decide)⟩

/-- C6: for a blob whose size does not overflow, whose CRC is valid and whose
length_sig field is 0, tlv_parse with a decoder naming a keyring (signature
support enabled) returns -EPROTO whatever the key list holds; the blob and the
device state are unchanged and the events are the CRC computation, the entry
into tlv_verify and its error message: no key is tried, no handler is called. -/
theorem tlv_parse_unsigned_with_keyring {σ : Type} (env : Env) (keys : List public_key)
    (decoder : tlv_decoder σ) (mem : Mem) (dev : σ) (keyring : String)
    (hen : env.CONFIG_TLV_SIGNATURE = true)
    (hsize : tlv_total_len env.SIZE_MAX mem ≠ env.SIZE_MAX)
    (hcrc : crc32_be 0xFFFFFFFF (readBytes mem 0 (tlv_total_len env.SIZE_MAX mem - 4))
        = tlv_crc env.SIZE_MAX mem)
    (hkr : decoder.signature_keyring = some keyring)
    (hsig : length_sig mem = 0) :
    tlv_parse env keys decoder mem dev =
      some ⟨-EPROTO, mem, dev,
        [Event.crc32_be_call (tlv_total_len env.SIZE_MAX mem - 4), Event.verify_call keyring,
         Event.err_unsigned]⟩ := by
  have hen' : ¬ env.CONFIG_TLV_SIGNATURE = false := by rw [hen]; decide
  have hsig' : get_unaligned_be16 mem OFF_LENGTH_SIG = 0 := hsig
  have hv : tlv_verify env keys mem keyring = ⟨-EPROTO, mem, [Event.err_unsigned]⟩ := by
    unfold tlv_verify
    simp only [if_neg hen', if_pos hsig']
  unfold tlv_parse
  simp only [if_neg hsize, hcrc, ne_eq, not_true_eq_false, if_false, hkr, hv]
  rfl

set_option maxRecDepth 20000 in
theorem tlv_parse_unsigned_with_keyring_witness :
    length_sig exBlob = 0 ∧
    tlv_parse exEnv [exKeyGood] exDecoderSigned exBlob [] =
      some ⟨-EPROTO, exBlob, [],
        [Event.crc32_be_call (tlv_total_len exEnv.SIZE_MAX exBlob - 4), Event.verify_call "board",
         Event.err_unsigned]⟩ :=
  ⟨by decide,
   tlv_parse_unsigned_with_keyring exEnv [exKeyGood] exDecoderSigned exBlob [] "board"
     (by decide) (by decide) (by decide) rfl (by decide)⟩

set_option maxRecDepth 20000 in
/-- C7 (evaluation at the failing input): tlv_verify succeeds on the signed
example blob with the good key, whose length_sig bytes are 00 06 before the
call, and leaves them as 00 00; tlv_parse then returns 0 with that changed
header. -/
theorem tlv_verify_success_leaves_length_sig_zero :
    (tlv_verify exEnv [exKeyGood] exBlobSigned "board").ret = 0 ∧
    exBlobSigned 8 = 0 ∧ exBlobSigned 9 = 6 ∧
    (tlv_verify exEnv [exKeyGood] exBlobSigned "board").mem 8 = 0 ∧
    (tlv_verify exEnv [exKeyGood] exBlobSigned "board").mem 9 = 0 ∧
    length_sig exBlobSigned = 6 ∧
    length_sig (tlv_verify exEnv [exKeyGood] exBlobSigned "board").mem = 0 ∧
    (tlv_parse exEnv [exKeyGood] exDecoderSigned exBlobSigned []).map (fun r => r.ret) = some 0 ∧
    (tlv_parse exEnv [exKeyGood] exDecoderSigned exBlobSigned []).map
      (fun r => (r.mem 8, r.mem 9)) = some (0, 0) := by
  refine ⟨by decide, by decide, by decide, by decide, by decide, by decide, by decide, ?_, ?_⟩
  · decide
  · decide

/-- C8: a key whose keyring name is absent or differs from the requested one
has no influence on tlv_verify: inserting it anywhere into the key list, or
removing it, leaves return value, memory and events the same, whatever its
fingerprint and whatever the primitive would say about it.  In particular,
with signature support enabled and a non-zero length_sig field, when no key of
the requested keyring has the blob's fingerprint the result is -ENOKEY. -/
theorem tlv_verify_only_requested_keyring (env : Env) (mem : Mem) (keyring : String) :
    (∀ (l1 l2 : List public_key) (k : public_key), k.keyring ≠ some keyring →
      tlv_verify env (l1 ++ k :: l2) mem keyring = tlv_verify env (l1 ++ l2) mem keyring) ∧
    (∀ keys : List public_key, env.CONFIG_TLV_SIGNATURE = true → length_sig mem ≠ 0 →
      (∀ k ∈ keys, k.keyring = some keyring →
        spki_of_key k ≠ get_unaligned_le32 mem (TLV_HEADER_SIZE + length_tlv mem)) →
      (tlv_verify env keys mem keyring).ret = -ENOKEY) := by
  constructor
  · intro l1 l2 k hk
    unfold tlv_verify
    simp only
    split
    · rfl
    · split
      · rfl
      · exact verify_loop_skip env _ keyring _ _ _ k hk l1 l2 0 []
  · intro keys hen hsig hno
    have hen' : ¬ env.CONFIG_TLV_SIGNATURE = false := by rw [hen]; decide
    have hsig' : ¬ get_unaligned_be16 mem OFF_LENGTH_SIG = 0 := hsig
    unfold tlv_verify
    simp only [if_neg hen', if_neg hsig']
    refine (verify_loop_ret env _ keyring _ _ _ keys 0 []).2.1.2 ⟨rfl, ?_⟩
    rintro k hk ⟨h1, h2⟩
    exact hno k hk h1 h2

theorem tlv_verify_only_requested_keyring_witness :
    tlv_verify exEnv ([exKeyWrong] ++ exKeyOther :: []) exBlobSigned "board" =
      tlv_verify exEnv ([exKeyWrong] ++ []) exBlobSigned "board" ∧
    (tlv_verify exEnv [exKeyOther] exBlobSigned "board").ret = -ENOKEY ∧
    (tlv_verify exEnv [exKeyOther] exBlobSigned "other").ret = 0 :=
  have h := tlv_verify_only_requested_keyring exEnv exBlobSigned "board"
  ⟨h.1 [exKeyWrong] [] exKeyOther (by decide),
   h.2 [exKeyOther] (by decide) (by decide) (by decide), by decide⟩

/-- C9: when tlv_total_len yields the sentinel SIZE_MAX, tlv_parse returns
-EOVERFLOW with the blob and the device state unchanged and the warning as
its only event: no CRC is computed, tlv_verify is not entered, no handler is
called.  The same holds for every blob with the same 12 header bytes, every
key list and every decoder, so nothing outside the fixed header is looked
at. -/
theorem tlv_parse_overflow {σ : Type} (env : Env) (keys : List public_key)
    (decoder : tlv_decoder σ) (mem : Mem) (dev : σ)
    (hsize : tlv_total_len env.SIZE_MAX mem = env.SIZE_MAX) :
    tlv_parse env keys decoder mem dev = some ⟨-EOVERFLOW, mem, dev, [Event.warn_overflow]⟩ ∧
    (∀ (keys' : List public_key) (decoder' : tlv_decoder σ) (mem' : Mem),
      (∀ i, i < TLV_HEADER_SIZE → mem' i = mem i) →
      tlv_parse env keys' decoder' mem' dev =
        some ⟨-EOVERFLOW, mem', dev, [Event.warn_overflow]⟩) := by
  have key : ∀ (ks : List public_key) (d : tlv_decoder σ) (m : Mem),
      tlv_total_len env.SIZE_MAX m = env.SIZE_MAX →
      tlv_parse env ks d m dev = some ⟨-EOVERFLOW, m, dev, [Event.warn_overflow]⟩ := by
    intro ks d m h
    unfold tlv_parse
    simp only [if_pos h]
  refine ⟨key keys decoder mem hsize, ?_⟩
  intro keys' decoder' mem' hag
  refine key keys' decoder' mem' ?_
  rw [tlv_total_len_agree env.SIZE_MAX mem' mem hag]
  exact hsize

theorem tlv_parse_overflow_witness :
    tlv_total_len exEnv32.SIZE_MAX exBlobOverflow = exEnv32.SIZE_MAX ∧
    tlv_parse exEnv32 [exKeyGood] exDecoderSigned exBlobOverflow [] =
      some ⟨-EOVERFLOW, exBlobOverflow, [], [Event.warn_overflow]⟩ :=
  ⟨by decide,
   (tlv_parse_overflow exEnv32 [exKeyGood] exDecoderSigned exBlobOverflow [] (by decide)).1⟩

/-- C10: for a blob that passes the size, CRC and (when a keyring is named)
signature checks, whose record section consists of the records at offsets ts
laid end to end up to exactly 12 + length_tlv, and for handlers that never
return a negative value, tlv_parse returns 0; its handler calls are, in record
order, one call for each record whose tag is found in a mapping table, with
that record's big-endian length and the address right after its 4-byte
prefix; device state and events are those of dispatching the records one
after the other; and a record with tag 0 never gives rise to a handler call. -/
theorem tlv_parse_dispatches_records {σ : Type} (env : Env) (keys : List public_key)
    (decoder : tlv_decoder σ) (mem : Mem) (dev : σ) (ts : List Nat)
    (hchecks : ChecksPass env keys decoder mem)
    (hrec : Records mem TLV_HEADER_SIZE ts (TLV_HEADER_SIZE + length_tlv mem))
    (hnn : HandlersNonneg decoder) :
    (∃ r, tlv_parse env keys decoder mem dev = some r ∧ r.ret = 0 ∧
      r.log.filter Event.is_handle = ts.filterMap (handler_call decoder mem) ∧
      dispatch_records decoder (mem_for_dispatch env keys decoder mem) ts dev
        (log_before_dispatch env keys decoder mem) = some (r.dev, r.log)) ∧
    (∀ t, TLV_TAG mem t = 0 → handler_call decoder mem t = none) := by
  refine ⟨?_, fun t ht => handler_call_zero_tag decoder mem t ht⟩
  obtain ⟨dev', log', hdisp, hlog⟩ := dispatch_nonneg decoder
    (mem_for_dispatch env keys decoder mem) hnn ts dev (log_before_dispatch env keys decoder mem)
  have hparse := tlv_parse_records env keys decoder mem dev ts _ dev' log' hchecks hrec
    (Or.inl rfl) hdisp
  have hend : TLV_HEADER_SIZE + length_tlv mem = tlvs_end mem := rfl
  rw [if_pos hend] at hparse
  refine ⟨_, hparse, rfl, ?_, hdisp⟩
  have hag := mem_for_dispatch_agree env keys decoder mem
  have h12 : ∀ t ∈ ts, 12 ≤ t := (records_ge mem ts _ _ hrec).2
  have hcall : ∀ t ∈ ts, handler_call decoder (mem_for_dispatch env keys decoder mem) t =
      handler_call decoder mem t := by
    intro t ht
    unfold handler_call
    rw [← TLV_TAG_agree _ _ hag t (h12 t ht), ← TLV_LEN_agree _ _ hag t (h12 t ht)]
  have hpre : (log_before_dispatch env keys decoder mem).filter Event.is_handle = [] := by
    unfold log_before_dispatch
    cases decoder.signature_keyring with
    | none => rfl
    | some keyring =>
      simp only [List.filter_append, tlv_verify_log]
      rfl
  show log'.filter Event.is_handle = _
  rw [hlog, hpre, List.nil_append]
  exact List.filterMap_congr hcall

theorem exDecoder_nonneg : HandlersNonneg exDecoder := by
  intro table ht map hm dev len val mem
  simp only [exDecoder, List.mem_singleton] at ht
  subst ht
  simp only [List.mem_singleton] at hm
  subst hm
  exact Int.le_refl 0

set_option maxRecDepth 20000 in
theorem tlv_parse_dispatches_records_witness :
    (ChecksPass exEnv [] exDecoder exBlob ∧
      Records exBlob TLV_HEADER_SIZE [12] (TLV_HEADER_SIZE + length_tlv exBlob) ∧
      HandlersNonneg exDecoder) ∧
    ((∃ r, tlv_parse exEnv [] exDecoder exBlob [] = some r ∧ r.ret = 0 ∧
      r.log.filter Event.is_handle = [12].filterMap (handler_call exDecoder exBlob) ∧
      dispatch_records exDecoder (mem_for_dispatch exEnv [] exDecoder exBlob) [12] []
        (log_before_dispatch exEnv [] exDecoder exBlob) = some (r.dev, r.log)) ∧
    (∀ t, TLV_TAG exBlob t = 0 → handler_call exDecoder exBlob t = none)) ∧
    tlv_parse exEnv [] exDecoder exBlob [] =
      some ⟨0, exBlob, [0xAA, 0xBB, 0xCC, 0xDD],
        [Event.crc32_be_call 20, Event.handle 0 0 4 16]⟩ :=
  have hc : ChecksPass exEnv [] exDecoder exBlob :=
    ⟨by decide, by decide, fun _ hk => nomatch hk⟩
  have hr : Records exBlob TLV_HEADER_SIZE [12] (TLV_HEADER_SIZE + length_tlv exBlob) :=
    ⟨rfl, by decide, by rfl⟩
  ⟨⟨hc, hr, exDecoder_nonneg⟩,
   tlv_parse_dispatches_records exEnv [] exDecoder exBlob [] [12] hc hr exDecoder_nonneg,
   by rfl⟩

/-! ## First match across the mapping tables -/

theorem search_table_none {σ : Type} (tag : Nat) (table : List (tlv_mapping σ)) :
    ∀ i0, (∀ e ∈ table_entries table, e.tag ≠ tag) → search_table tag table i0 = none := by
  induction table with
  | nil => intro i0 _; rfl
  | cons m rest ih =>
    intro i0 h
    simp only [search_table]
    by_cases hz : m.tag = 0
    · rw [if_pos hz]
    · rw [if_neg hz]
      have hent : table_entries (m :: rest) = m :: table_entries rest := by
        simp [table_entries, List.takeWhile_cons, hz]
      rw [hent] at h
      have hm : m.tag ≠ tag := h m (List.mem_cons_self _ _)
      rw [if_neg hm]
      exact ih _ (fun e he => h e (List.mem_cons_of_mem _ he))

theorem search_table_found {σ : Type} (tag : Nat) (m : tlv_mapping σ)
    (es2 : List (tlv_mapping σ)) (htag : tag ≠ 0) (hm : m.tag = tag)
    (es1 : List (tlv_mapping σ)) :
    ∀ i0, (∀ e ∈ es1, e.tag ≠ 0 ∧ e.tag ≠ tag) →
      search_table tag (es1 ++ m :: es2) i0 = some (i0 + es1.length, m) := by
  induction es1 with
  | nil =>
    intro i0 _
    have hz : m.tag ≠ 0 := by rw [hm]; exact htag
    simp only [List.nil_append, search_table, if_neg hz, if_pos hm, List.length_nil, Nat.add_zero]
  | cons e es1 ih =>
    intro i0 h
    obtain ⟨h0, h1⟩ := h e (List.mem_cons_self _ _)
    simp only [List.cons_append, search_table, if_neg h0, if_neg h1, List.length_cons]
    change search_table tag (es1 ++ m :: es2) (i0 + 1) = _
    rw [ih (i0 + 1) (fun x hx => h x (List.mem_cons_of_mem _ hx))]
    congr 2
    omega

theorem search_mappings_found {σ : Type} (tag : Nat) (m : tlv_mapping σ)
    (es1 es2 : List (tlv_mapping σ)) (post : List (List (tlv_mapping σ)))
    (htag : tag ≠ 0) (hm : m.tag = tag) (hes1 : ∀ e ∈ es1, e.tag ≠ 0 ∧ e.tag ≠ tag)
    (pre : List (List (tlv_mapping σ))) :
    ∀ t0, (∀ table ∈ pre, ∀ e ∈ table_entries table, e.tag ≠ tag) →
      search_mappings tag (pre ++ (es1 ++ m :: es2) :: post) t0
        = some (t0 + pre.length, es1.length, m) := by
  induction pre with
  | nil =>
    intro t0 _
    simp only [List.nil_append, search_mappings,
      search_table_found tag m es2 htag hm es1 0 hes1, List.length_nil, Nat.add_zero,
      Nat.zero_add]
  | cons table pre ih =>
    intro t0 h
    simp only [List.cons_append, search_mappings,
      search_table_none tag table 0 (h table (List.mem_cons_self _ _)), List.length_cons]
    change search_mappings tag (pre ++ (es1 ++ m :: es2) :: post) (t0 + 1) = _
    rw [ih (t0 + 1) (fun tb htb => h tb (List.mem_cons_of_mem _ htb))]
    congr 2
    omega

theorem search_mappings_none {σ : Type} (tag : Nat) (tables : List (List (tlv_mapping σ))) :
    ∀ t0, (∀ table ∈ tables, ∀ e ∈ table_entries table, e.tag ≠ tag) →
      search_mappings tag tables t0 = none := by
  induction tables with
  | nil => intro t0 _; rfl
  | cons table rest ih =>
    intro t0 h
    simp only [search_mappings, search_table_none tag table 0 (h table (List.mem_cons_self _ _))]
    exact ih _ (fun tb htb => h tb (List.mem_cons_of_mem _ htb))

/-- C11: for a non-zero tag, when the decoder's tables are pre, then a table
that holds the entry m with that tag after entries es1 with other non-zero
tags, then any further tables, and no table of pre has a reachable entry with
the tag, the lookup of tlv_parse yields m, at table index |pre| and entry
index |es1|, whatever follows m in its table and whatever the later tables
hold; a record with that tag makes the loop call the handler of m, and no
other, exactly once before it goes on.  With pre a single table this is the
case of a tag found in the second table only. -/
theorem tlv_parse_first_match_wins {σ : Type} (decoder : tlv_decoder σ) (mem : Mem) (tag : Nat)
    (pre : List (List (tlv_mapping σ))) (es1 : List (tlv_mapping σ)) (m : tlv_mapping σ)
    (es2 : List (tlv_mapping σ)) (post : List (List (tlv_mapping σ)))
    (htag : tag ≠ 0)
    (hdec : decoder.mappings = pre ++ (es1 ++ m :: es2) :: post)
    (hpre : ∀ table ∈ pre, ∀ e ∈ table_entries table, e.tag ≠ tag)
    (hes1 : ∀ e ∈ es1, e.tag ≠ 0 ∧ e.tag ≠ tag)
    (hm : m.tag = tag) :
    search_mappings tag decoder.mappings 0 = some (pre.length, es1.length, m) ∧
    (∀ (fuel tlv : Nat) (dev : σ) (log : List Event), TLV_TAG mem tlv = tag →
      tlv_parse_loop decoder mem (fuel + 1) (TlvPtr.ptr tlv) dev log =
        if (m.handle dev (TLV_LEN mem tlv) (tlv + 4) mem).1 < 0 then
          some ⟨(m.handle dev (TLV_LEN mem tlv) (tlv + 4) mem).1, mem,
            (m.handle dev (TLV_LEN mem tlv) (tlv + 4) mem).2,
            log ++ [Event.handle pre.length es1.length (TLV_LEN mem tlv) (tlv + 4)]⟩
        else
          tlv_parse_loop decoder mem fuel (tlv_next mem (some tlv))
            (m.handle dev (TLV_LEN mem tlv) (tlv + 4) mem).2
            (log ++ [Event.handle pre.length es1.length (TLV_LEN mem tlv) (tlv + 4)])) := by
  have hs : search_mappings tag decoder.mappings 0 = some (pre.length, es1.length, m) := by
    rw [hdec, search_mappings_found tag m es1 es2 post htag hm hes1 pre 0 hpre, Nat.zero_add]
  refine ⟨hs, ?_⟩
  intro fuel tlv dev log ht
  simp only [tlv_parse_loop, TLV_VAL, ht, hs]

set_option maxRecDepth 20000 in
theorem tlv_parse_first_match_wins_witness :
    search_mappings 2 exDecoderTwo.mappings 0 = some (1, 0, exMapLen) ∧
    tlv_parse exEnv [] exDecoderTwo exBlobFour [] =
      some ⟨0, exBlobFour, [2, 0xAA, 0xBB, 0xCC, 0xDD],
        [Event.crc32_be_call 34, Event.handle 1 0 2 16, Event.handle 0 0 4 22,
         Event.warn_unknown_tag 7]⟩ :=
  ⟨(tlv_parse_first_match_wins exDecoderTwo exBlobFour 2 [[exMapCollect]] [] exMapLen
      [exMapFail] [] (by decide) rfl
      (by
        intro table ht e he
        simp only [List.mem_singleton] at ht
        subst ht
        have he' : e = exMapCollect := by simpa [table_entries, exMapCollect] using he
        subst he'
        decide)
      (by intro e he; cases he) rfl).1,
   by rfl⟩

/-! ## A failing handler -/

theorem dispatch_log {σ : Type} (decoder : tlv_decoder σ) (mem : Mem) (ts : List Nat) :
    ∀ (dev : σ) (log : List Event) (dev' : σ) (log' : List Event),
      dispatch_records decoder mem ts dev log = some (dev', log') →
      log'.filter Event.is_handle =
        log.filter Event.is_handle ++ ts.filterMap (handler_call decoder mem) := by
  induction ts with
  | nil =>
    intro dev log dev' log' h
    simp only [dispatch_records, Option.some.injEq, Prod.mk.injEq] at h
    obtain ⟨_, rfl⟩ := h
    simp
  | cons t ts ih =>
    intro dev log dev' log' h
    simp only [dispatch_records] at h
    simp only [List.filterMap_cons, handler_call]
    cases hs : search_mappings (TLV_TAG mem t) decoder.mappings 0 with
    | none =>
      rw [hs] at h
      simp only at h ⊢
      rw [ih _ _ _ _ h]
      split <;> simp [Event.is_handle, handler_call]
    | some found =>
      obtain ⟨ti, i, map⟩ := found
      rw [hs] at h
      simp only at h ⊢
      split at h
      · cases h
      · rw [ih _ _ _ _ h]
        simp [Event.is_handle, handler_call]

theorem parse_loop_handler_fails {σ : Type} (decoder : tlv_decoder σ) (mem : Mem)
    (p ti i : Nat) (m : tlv_mapping σ)
    (hfit : p + 4 + TLV_LEN mem p ≤ tlvs_end mem)
    (hs : search_mappings (TLV_TAG mem p) decoder.mappings 0 = some (ti, i, m))
    (ts : List Nat) :
    ∀ (prev : Option Nat) (fuel : Nat) (dev : σ) (log : List Event) (dev1 : σ)
      (log1 : List Event),
      Records mem (next_pos mem prev) ts p → ts.length < fuel →
      dispatch_records decoder mem ts dev log = some (dev1, log1) →
      (m.handle dev1 (TLV_LEN mem p) (p + 4) mem).1 < 0 →
      tlv_parse_loop decoder mem fuel (tlv_next mem prev) dev log =
        some ⟨(m.handle dev1 (TLV_LEN mem p) (p + 4) mem).1, mem,
          (m.handle dev1 (TLV_LEN mem p) (p + 4) mem).2,
          log1 ++ [Event.handle ti i (TLV_LEN mem p) (p + 4)]⟩ := by
  induction ts with
  | nil =>
    intro prev fuel dev log dev1 log1 hrec hfuel hdisp hneg
    simp only [Records] at hrec
    simp only [dispatch_records, Option.some.injEq, Prod.mk.injEq] at hdisp
    obtain ⟨rfl, rfl⟩ := hdisp
    obtain ⟨fuel, rfl⟩ : ∃ f, fuel = f + 1 := ⟨fuel - 1, by simp at hfuel; omega⟩
    have hptr : tlv_next mem prev = TlvPtr.ptr p :=
      (tlv_next_ptr_iff mem prev p).2 ⟨hrec.symm, hfit⟩
    rw [hptr]
    simp only [tlv_parse_loop, TLV_VAL, hs, if_pos hneg]
  | cons t ts ih =>
    intro prev fuel dev log dev1 log1 hrec hfuel hdisp hneg
    obtain ⟨ht, hfit', hrest⟩ := hrec
    obtain ⟨fuel, rfl⟩ : ∃ f, fuel = f + 1 := ⟨fuel - 1, by simp at hfuel; omega⟩
    have hptr : tlv_next mem prev = TlvPtr.ptr t :=
      (tlv_next_ptr_iff mem prev t).2 ⟨ht, by rw [ht]; exact hfit'⟩
    rw [hptr]
    have hnext : next_pos mem (some t) = next_pos mem prev + 4 + TLV_LEN mem (next_pos mem prev) := by
      rw [← ht]; rfl
    rw [← hnext] at hrest
    have hfuel' : ts.length < fuel := by simp only [List.length_cons] at hfuel; omega
    simp only [dispatch_records] at hdisp
    simp only [tlv_parse_loop, TLV_VAL]
    cases hst : search_mappings (TLV_TAG mem t) decoder.mappings 0 with
    | none =>
      rw [hst] at hdisp
      simp only at hdisp ⊢
      exact ih (some t) fuel dev _ dev1 log1 hrest hfuel' hdisp hneg
    | some found =>
      obtain ⟨tj, j, map⟩ := found
      rw [hst] at hdisp
      simp only at hdisp ⊢
      by_cases hn : (map.handle dev (TLV_LEN mem t) (t + 4) mem).1 < 0
      · rw [if_pos hn] at hdisp
        cases hdisp
      · rw [if_neg hn] at hdisp
        rw [if_neg hn]
        exact ih (some t) fuel _ _ dev1 log1 hrest hfuel' hdisp hneg

theorem log_before_dispatch_handles {σ : Type} (env : Env) (keys : List public_key)
    (decoder : tlv_decoder σ) (mem : Mem) :
    (log_before_dispatch env keys decoder mem).filter Event.is_handle = [] := by
  unfold log_before_dispatch
  cases decoder.signature_keyring with
  | none => rfl
  | some keyring =>
    simp only [List.filter_append, tlv_verify_log]
    rfl

theorem handler_call_agree {σ : Type} (decoder : tlv_decoder σ) (m1 m2 : Mem)
    (h : ∀ i, i ≠ 8 → i ≠ 9 → m1 i = m2 i) (t : Nat) (ht : 12 ≤ t) :
    handler_call decoder m1 t = handler_call decoder m2 t := by
  unfold handler_call
  rw [TLV_TAG_agree _ _ h t ht, TLV_LEN_agree _ _ h t ht]

/-- C12: when the checks of tlv_parse have passed, the records at offsets ts
have been dispatched without a failure, and the handler found for the next
record, at p, returns a negative value, then tlv_parse returns exactly that
value; its handler calls are one for each earlier record with a matching tag,
followed by the failing call, and nothing after it.  Nothing is assumed about
the bytes after the record at p: whether further records are well formed or
not has no influence on the result. -/
theorem tlv_parse_handler_failure {σ : Type} (env : Env) (keys : List public_key)
    (decoder : tlv_decoder σ) (mem : Mem) (dev : σ) (ts : List Nat) (p ti i : Nat)
    (m : tlv_mapping σ) (dev1 : σ) (log1 : List Event)
    (hchecks : ChecksPass env keys decoder mem)
    (hrec : Records mem TLV_HEADER_SIZE ts p)
    (hfit : p + 4 + TLV_LEN mem p ≤ TLV_HEADER_SIZE + length_tlv mem)
    (hdisp : dispatch_records decoder (mem_for_dispatch env keys decoder mem) ts dev
      (log_before_dispatch env keys decoder mem) = some (dev1, log1))
    (hs : search_mappings (TLV_TAG mem p) decoder.mappings 0 = some (ti, i, m))
    (hneg : (m.handle dev1 (TLV_LEN mem p) (p + 4) (mem_for_dispatch env keys decoder mem)).1
      < 0) :
    tlv_parse env keys decoder mem dev =
      some ⟨(m.handle dev1 (TLV_LEN mem p) (p + 4) (mem_for_dispatch env keys decoder mem)).1,
        mem_for_dispatch env keys decoder mem,
        (m.handle dev1 (TLV_LEN mem p) (p + 4) (mem_for_dispatch env keys decoder mem)).2,
        log1 ++ [Event.handle ti i (TLV_LEN mem p) (p + 4)]⟩ ∧
    (log1 ++ [Event.handle ti i (TLV_LEN mem p) (p + 4)]).filter Event.is_handle =
      ts.filterMap (handler_call decoder mem) ++ [Event.handle ti i (TLV_LEN mem p) (p + 4)] := by
  have hag := mem_for_dispatch_agree env keys decoder mem
  have hend := tlvs_end_agree _ _ hag
  have hrec' := records_agree _ _ hag ts _ _ (Nat.le_refl 12) hrec
  have hp12 : 12 ≤ p := (records_ge _ ts _ _ hrec).1
  have hts12 : ∀ t ∈ ts, 12 ≤ t := (records_ge _ ts _ _ hrec).2
  have hlen := TLV_LEN_agree _ _ hag p hp12
  have htag := TLV_TAG_agree _ _ hag p hp12
  have hfit' : p + 4 + TLV_LEN (mem_for_dispatch env keys decoder mem) p
      ≤ tlvs_end (mem_for_dispatch env keys decoder mem) := by
    rw [← hlen, ← hend]; exact hfit
  have hle : TLV_HEADER_SIZE ≤ tlvs_end (mem_for_dispatch env keys decoder mem) := by
    unfold tlvs_end; omega
  obtain ⟨hb1, _⟩ := records_bound _ ts _ _ hrec' hle
  constructor
  · rw [tlv_parse_of_checks env keys decoder mem dev hchecks]
    rw [htag] at hs
    rw [hlen] at hneg ⊢
    refine parse_loop_handler_fails decoder _ p ti i m hfit' hs ts none _ dev _ dev1 log1
      hrec' ?_ hdisp hneg
    have h12 : TLV_HEADER_SIZE = 12 := rfl
    unfold tlvs_end at hfit'
    rw [h12] at hfit'
    omega
  · have h1 := dispatch_log decoder _ ts _ _ _ _ hdisp
    rw [log_before_dispatch_handles, List.nil_append] at h1
    have h2 : ts.filterMap (handler_call decoder (mem_for_dispatch env keys decoder mem)) =
        ts.filterMap (handler_call decoder mem) :=
      List.filterMap_congr
        (fun t ht => (handler_call_agree decoder _ _ hag t (hts12 t ht)).symm)
    rw [List.filter_append, h1, h2]
    rfl

set_option maxRecDepth 20000 in
theorem tlv_parse_handler_failure_witness :
    tlv_parse exEnv [] exDecoderFail exBlobFour [] =
      some ⟨-5, exBlobFour, [2],
        [Event.crc32_be_call 34, Event.handle 0 1 2 16, Event.handle 0 0 4 22]⟩ ∧
    tlv_next exBlobMalformed (some 12) = TlvPtr.err (-ENODATA) ∧
    tlv_parse exEnv [] exDecoderFail exBlobMalformed [] =
      some ⟨-5, exBlobMalformed, [], [Event.crc32_be_call 24, Event.handle 0 0 4 16]⟩ :=
  ⟨(tlv_parse_handler_failure exEnv [] exDecoderFail exBlobFour [] [12] 18 0 0 exMapFail [2]
      [Event.crc32_be_call 34, Event.handle 0 1 2 16]
      ⟨by decide, by decide, fun _ hk => nomatch hk⟩ ⟨rfl, by decide, by rfl⟩ (by decide)
      (by rfl) (by rfl) (by decide)).1,
   by decide,
   (tlv_parse_handler_failure exEnv [] exDecoderFail exBlobMalformed [] [] 12 0 0 exMapFail []
      [Event.crc32_be_call 24]
      ⟨by decide, by decide, fun _ hk => nomatch hk⟩ rfl (by decide)
      (by rfl) (by rfl) (by decide)).1⟩

/-! ## Records without a mapping entry -/

theorem dispatch_congr_log {σ : Type} (decoder : tlv_decoder σ) (mem : Mem) (ts : List Nat) :
    ∀ (dev : σ) (l1 l2 : List Event),
      l1.filter Event.is_handle = l2.filter Event.is_handle →
      (dispatch_records decoder mem ts dev l1).map
          (fun r => (r.1, r.2.filter Event.is_handle)) =
        (dispatch_records decoder mem ts dev l2).map
          (fun r => (r.1, r.2.filter Event.is_handle)) := by
  induction ts with
  | nil =>
    intro dev l1 l2 h
    simp only [dispatch_records, Option.map_some', h]
  | cons t ts ih =>
    intro dev l1 l2 h
    simp only [dispatch_records]
    cases hs : search_mappings (TLV_TAG mem t) decoder.mappings 0 with
    | none =>
      simp only
      refine ih dev _ _ ?_
      split <;> simp [Event.is_handle, h]
    | some found =>
      obtain ⟨ti, i, map⟩ := found
      simp only
      split
      · rfl
      · refine ih _ _ _ ?_
        simp [h]

theorem dispatch_skip_unmatched {σ : Type} (decoder : tlv_decoder σ) (mem : Mem) (t : Nat)
    (hs : search_mappings (TLV_TAG mem t) decoder.mappings 0 = none) (ts2 ts1 : List Nat) :
    ∀ (dev : σ) (log : List Event),
      (dispatch_records decoder mem (ts1 ++ t :: ts2) dev log).map
          (fun r => (r.1, r.2.filter Event.is_handle)) =
        (dispatch_records decoder mem (ts1 ++ ts2) dev log).map
          (fun r => (r.1, r.2.filter Event.is_handle)) := by
  induction ts1 with
  | nil =>
    intro dev log
    simp only [List.nil_append, dispatch_records, hs]
    refine dispatch_congr_log decoder mem ts2 dev _ _ ?_
    split <;> simp [Event.is_handle]
  | cons u us ih =>
    intro dev log
    simp only [List.cons_append, dispatch_records]
    cases search_mappings (TLV_TAG mem u) decoder.mappings 0 with
    | none => exact ih _ _
    | some found =>
      obtain ⟨ti, i, map⟩ := found
      simp only
      split
      · rfl
      · exact ih _ _

theorem records_mem_ge (mem : Mem) (ts : List Nat) (off stop : Nat)
    (h : Records mem off ts stop) : ∀ t ∈ ts, off ≤ t :=
  (records_ge mem ts off stop h).2

/-- C13: the lookup of tlv_parse finds nothing for tag 0, for an empty list of
tables, and for a tag that no reachable entry of any table carries.  For a
record for which it finds nothing the loop calls no handler and goes on with
the next record, adding a warning exactly when the tag is non-zero.  Leaving
such a record out of the dispatched records changes neither whether a handler
fails, nor the device state, nor the handler calls; so tlv_parse ends with the
same return value, device state and handler calls as for the other records
alone. -/
theorem tlv_parse_unmatched_record {σ : Type} (env : Env) (keys : List public_key)
    (decoder : tlv_decoder σ) (mem : Mem) (dev : σ) :
    (search_mappings 0 decoder.mappings 0 = none ∧
      (∀ tag, decoder.mappings = [] → search_mappings tag decoder.mappings 0 = none) ∧
      (∀ tag, (∀ table ∈ decoder.mappings, ∀ e ∈ table_entries table, e.tag ≠ tag) →
        search_mappings tag decoder.mappings 0 = none)) ∧
    (∀ (fuel tlv : Nat) (d : σ) (log : List Event),
      search_mappings (TLV_TAG mem tlv) decoder.mappings 0 = none →
      tlv_parse_loop decoder mem (fuel + 1) (TlvPtr.ptr tlv) d log =
        tlv_parse_loop decoder mem fuel (tlv_next mem (some tlv)) d
          (if TLV_TAG mem tlv ≠ 0 then log ++ [Event.warn_unknown_tag (TLV_TAG mem tlv)]
           else log)) ∧
    (∀ (ts1 ts2 : List Nat) (t : Nat) (d : σ) (log : List Event),
      search_mappings (TLV_TAG mem t) decoder.mappings 0 = none →
      (dispatch_records decoder mem (ts1 ++ t :: ts2) d log).map
          (fun r => (r.1, r.2.filter Event.is_handle)) =
        (dispatch_records decoder mem (ts1 ++ ts2) d log).map
          (fun r => (r.1, r.2.filter Event.is_handle))) ∧
    (∀ (ts1 ts2 : List Nat) (t stop : Nat) (dev' : σ) (log' : List Event),
      ChecksPass env keys decoder mem →
      Records mem TLV_HEADER_SIZE (ts1 ++ t :: ts2) stop →
      (stop = tlvs_end mem ∨ stop + 4 + TLV_LEN mem stop > tlvs_end mem) →
      search_mappings (TLV_TAG mem t) decoder.mappings 0 = none →
      dispatch_records decoder (mem_for_dispatch env keys decoder mem) (ts1 ++ ts2) dev
        (log_before_dispatch env keys decoder mem) = some (dev', log') →
      ∃ r, tlv_parse env keys decoder mem dev = some r ∧
        r.ret = (if stop = tlvs_end mem then 0 else -ENODATA) ∧ r.dev = dev' ∧
        r.log.filter Event.is_handle = log'.filter Event.is_handle) := by
  refine ⟨⟨?_, ?_, ?_⟩, ?_, ?_, ?_⟩
  · cases hs : search_mappings 0 decoder.mappings 0 with
    | none => rfl
    | some found =>
      obtain ⟨ti, i, map⟩ := found
      exact absurd rfl (search_mappings_some _ _ _ _ _ _ hs).2.2
  · intro tag h
    rw [h]
    rfl
  · intro tag h
    exact search_mappings_none tag decoder.mappings 0 h
  · intro fuel tlv d log hs
    simp only [tlv_parse_loop, hs]
  · intro ts1 ts2 t d log hs
    exact dispatch_skip_unmatched decoder mem t hs ts2 ts1 d log
  · intro ts1 ts2 t stop dev' log' hchecks hrec hstop hs hdisp
    have hag := mem_for_dispatch_agree env keys decoder mem
    have ht12 : 12 ≤ t := records_mem_ge mem _ _ _ hrec t (by simp)
    rw [TLV_TAG_agree _ _ hag t ht12] at hs
    have hmap := dispatch_skip_unmatched decoder (mem_for_dispatch env keys decoder mem) t hs
      ts2 ts1 dev (log_before_dispatch env keys decoder mem)
    rw [hdisp] at hmap
    cases hfull : dispatch_records decoder (mem_for_dispatch env keys decoder mem)
        (ts1 ++ t :: ts2) dev (log_before_dispatch env keys decoder mem) with
    | none =>
      rw [hfull] at hmap
      simp at hmap
    | some res =>
      obtain ⟨d2, l2⟩ := res
      rw [hfull] at hmap
      simp only [Option.map_some', Option.some.injEq, Prod.mk.injEq] at hmap
      obtain ⟨hd, hl⟩ := hmap
      subst hd
      exact ⟨_, tlv_parse_records env keys decoder mem dev _ stop d2 l2 hchecks hrec hstop hfull,
        rfl, rfl, hl⟩

set_option maxRecDepth 20000 in
theorem tlv_parse_unmatched_record_witness :
    (∃ r, tlv_parse exEnv [] exDecoderTwo exBlobFour [] = some r ∧
      r.ret = (if 34 = tlvs_end exBlobFour then 0 else -ENODATA) ∧
      r.dev = [2, 0xAA, 0xBB, 0xCC, 0xDD] ∧
      r.log.filter Event.is_handle =
        [Event.crc32_be_call 34, Event.handle 1 0 2 16, Event.handle 0 0 4 22].filter
          Event.is_handle) ∧
    tlv_parse exEnv [] exDecoderTwo exBlobFour [] =
      some ⟨0, exBlobFour, [2, 0xAA, 0xBB, 0xCC, 0xDD],
        [Event.crc32_be_call 34, Event.handle 1 0 2 16, Event.handle 0 0 4 22,
         Event.warn_unknown_tag 7]⟩ :=
  ⟨(tlv_parse_unmatched_record exEnv [] exDecoderTwo exBlobFour []).2.2.2
      [12, 18] [30] 26 34 [2, 0xAA, 0xBB, 0xCC, 0xDD]
      [Event.crc32_be_call 34, Event.handle 1 0 2 16, Event.handle 0 0 4 22]
      ⟨by decide, by decide, fun _ hk => nomatch hk⟩
      ⟨rfl, by decide, rfl, by decide, rfl, by decide, rfl, by decide, by rfl⟩
      (Or.inl (by decide)) (by rfl) (by decide),
   by rfl⟩

/-! ## Serialised records -/

theorem readBytes_add (mem : Mem) (off a b : Nat) :
    readBytes mem off (a + b) = readBytes mem off a ++ readBytes mem (off + a) b := by
  simp only [readBytes, List.range_add, List.map_append, List.map_map]
  congr 1
  apply List.map_congr_left
  intro i _
  simp [Nat.add_assoc]

theorem readBytes_length (mem : Mem) (off len : Nat) : (readBytes mem off len).length = len := by
  simp [readBytes]

theorem encode_record_length (tag : Nat) (val : List Nat) :
    (encode_record tag val).length = 4 + val.length := by
  simp only [encode_record, List.length_append, List.length_cons, List.length_nil]

theorem readBytes_four (mem : Mem) (off : Nat) :
    readBytes mem off 4 = [byte mem off, byte mem (off + 1), byte mem (off + 2), byte mem (off + 3)] := by
  simp [readBytes, List.range_succ]

theorem iterate_records (mem : Mem) (ts : List Nat) :
    ∀ (prev : Option Nat) (fuel : Nat) (stop : Nat),
      Records mem (next_pos mem prev) ts stop → ts.length < fuel →
      (stop = tlvs_end mem ∨ stop + 4 + TLV_LEN mem stop > tlvs_end mem) →
      tlv_iterate mem fuel prev =
        some (ts, if stop = tlvs_end mem then TlvPtr.null else TlvPtr.err (-ENODATA)) := by
  induction ts with
  | nil =>
    intro prev fuel stop hrec hfuel hstop
    simp only [Records] at hrec
    obtain ⟨fuel, rfl⟩ : ∃ f, fuel = f + 1 := ⟨fuel - 1, by simp at hfuel; omega⟩
    simp only [tlv_iterate]
    rw [tlv_next_eq, hrec]
    by_cases he : stop = tlvs_end mem
    · simp only [if_pos he]
    · have h2 : stop + 4 + TLV_LEN mem stop > tlvs_end mem := by
        rcases hstop with h | h
        · exact absurd h he
        · exact h
      simp only [if_neg he, if_pos h2]
  | cons t ts ih =>
    intro prev fuel stop hrec hfuel hstop
    obtain ⟨ht, hfit, hrest⟩ := hrec
    obtain ⟨fuel, rfl⟩ : ∃ f, fuel = f + 1 := ⟨fuel - 1, by simp at hfuel; omega⟩
    have hptr : tlv_next mem prev = TlvPtr.ptr t :=
      (tlv_next_ptr_iff mem prev t).2 ⟨ht, by rw [ht]; exact hfit⟩
    have hnext : next_pos mem (some t) = next_pos mem prev + 4 + TLV_LEN mem (next_pos mem prev) := by
      rw [← ht]; rfl
    rw [← hnext] at hrest
    have hfuel' : ts.length < fuel := by simp only [List.length_cons] at hfuel; omega
    simp only [tlv_iterate, hptr, ih (some t) fuel stop hrest hfuel' hstop, Option.map_some']

theorem layout_records (mem : Mem) (rs : List (Nat × List Nat)) :
    ∀ off, (∀ r ∈ rs, r.1 < 65536 ∧ r.2.length ≤ 65535) →
      readBytes mem off (encode_records rs).length = encode_records rs →
      off + (encode_records rs).length = tlvs_end mem →
      ∃ ts, Records mem off ts (tlvs_end mem) ∧ ts.map (decode_record mem) = rs ∧
        ts.map (TLV_LEN mem) = rs.map (fun r => r.2.length) := by
  induction rs with
  | nil =>
    intro off _ _ hend
    refine ⟨[], ?_, rfl, rfl⟩
    simpa [encode_records, Records] using hend
  | cons r rs ih =>
    intro off hwf hbytes hend
    obtain ⟨tag, val⟩ := r
    obtain ⟨htag, hlen⟩ := hwf (tag, val) (List.mem_cons_self _ _)
    simp only at htag hlen
    simp only [encode_records, List.length_append, encode_record_length] at hbytes hend
    rw [readBytes_add, readBytes_add] at hbytes
    have hsplit := List.append_inj hbytes (by simp [readBytes_length, encode_record_length])
    obtain ⟨hrec, hrest⟩ := hsplit
    have hsplit2 := List.append_inj hrec (by simp [readBytes_length, encode_record])
    obtain ⟨hpre, hval⟩ := hsplit2
    rw [readBytes_four] at hpre
    simp only [encode_record, List.cons_append, List.nil_append, List.cons.injEq, and_true]
      at hpre
    obtain ⟨h0, h1, h2, h3⟩ := hpre
    have hT : TLV_TAG mem off = tag := by
      unfold TLV_TAG get_unaligned_be16
      rw [h0, h1]
      omega
    have hL : TLV_LEN mem off = val.length := by
      unfold TLV_LEN get_unaligned_be16
      have h3' : byte mem (off + 2 + 1) = val.length % 256 := h3
      rw [h2, h3']
      omega
    rw [← Nat.add_assoc] at hrest
    obtain ⟨ts, hts, hdec, hlens⟩ := ih (off + 4 + val.length)
      (fun x hx => hwf x (List.mem_cons_of_mem _ hx)) hrest (by omega)
    refine ⟨off :: ts, ⟨rfl, ?_, ?_⟩, ?_, ?_⟩
    · rw [hL]; omega
    · rw [hL]; exact hts
    · simp only [List.map_cons, decode_record, hT, hL, TLV_VAL, hdec]
      rw [hval]
    · simp only [List.map_cons, hL, hlens]

/-- C14: let rs be records with 16-bit tags and values of at most 65535 bytes,
serialised as big-endian tag, big-endian length and value bytes, stored from
offset 12 on in a blob whose length_tlv is the serialised size.  Then the
iteration that starts with tlv_next(header, NULL) hands out exactly one record
per element of rs, in order, with the same tag, length and value bytes, and
ends with NULL, not with an error.  With length_tlv = 0 the first call already
returns NULL. -/
theorem tlv_next_round_trip (mem : Mem) (rs : List (Nat × List Nat))
    (hwf : ∀ r ∈ rs, r.1 < 65536 ∧ r.2.length ≤ 65535)
    (hlen : length_tlv mem = (encode_records rs).length)
    (hbytes : readBytes mem TLV_HEADER_SIZE (encode_records rs).length = encode_records rs) :
    (∃ ts, tlv_iterate mem (length_tlv mem / 4 + 1) none = some (ts, TlvPtr.null) ∧
      ts.map (decode_record mem) = rs ∧
      ts.map (TLV_LEN mem) = rs.map (fun r => r.2.length)) ∧
    (length_tlv mem = 0 → tlv_next mem none = TlvPtr.null) := by
  constructor
  · obtain ⟨ts, hrec, hdec, hlens⟩ := layout_records mem rs TLV_HEADER_SIZE hwf hbytes
      (by unfold tlvs_end; rw [hlen])
    refine ⟨ts, ?_, hdec, hlens⟩
    have hle : TLV_HEADER_SIZE ≤ tlvs_end mem := by unfold tlvs_end; omega
    obtain ⟨hb, _⟩ := records_bound mem ts _ _ hrec hle
    have h := iterate_records mem ts none (length_tlv mem / 4 + 1) (tlvs_end mem) hrec
      (by unfold tlvs_end at hb; omega) (Or.inl rfl)
    rw [if_pos rfl] at h
    exact h
  · intro h0
    rw [tlv_next_eq]
    have : next_pos mem none = tlvs_end mem := by
      unfold tlvs_end
      rw [h0]
      rfl
    rw [if_pos this]

theorem tlv_next_round_trip_witness :
    tlv_iterate exBlobFour (length_tlv exBlobFour / 4 + 1) none
      = some ([12, 18, 26, 30], TlvPtr.null) ∧
    [12, 18, 26, 30].map (decode_record exBlobFour) =
      [(2, [0x11, 0x22]), (1, [0xAA, 0xBB, 0xCC, 0xDD]), (7, []), (0, [])] ∧
    ∃ ts, tlv_iterate exBlobFour (length_tlv exBlobFour / 4 + 1) none = some (ts, TlvPtr.null) ∧
      ts.map (decode_record exBlobFour) =
        [(2, [0x11, 0x22]), (1, [0xAA, 0xBB, 0xCC, 0xDD]), (7, []), (0, [])] ∧
      ts.map (TLV_LEN exBlobFour) =
        [(2, [0x11, 0x22]), (1, [0xAA, 0xBB, 0xCC, 0xDD]), (7, []), (0, [])].map
          (fun r => r.2.length) :=
  ⟨by decide, by decide,
   (tlv_next_round_trip exBlobFour
      [(2, [0x11, 0x22]), (1, [0xAA, 0xBB, 0xCC, 0xDD]), (7, []), (0, [])]
      (by decide) (by decide) (by decide)).1⟩

/-! ## What a verification attempt is given -/

theorem byte_zeroed_sig (mem : Mem) (i : Nat) :
    byte (put_unaligned_be16 0 mem OFF_LENGTH_SIG) i = if i = 8 ∨ i = 9 then 0 else byte mem i := by
  unfold byte put_unaligned_be16 store8 OFF_LENGTH_SIG
  by_cases h9 : i = 9
  · simp [h9]
  · by_cases h8 : i = 8
    · simp [h8]
    · simp [h8, h9]

theorem readBytes_zeroed_sig (mem : Mem) (n : Nat) :
    readBytes (put_unaligned_be16 0 mem OFF_LENGTH_SIG) 0 n =
      (List.range n).map (fun i => if i = 8 ∨ i = 9 then 0 else byte mem i) := by
  unfold readBytes
  apply List.map_congr_left
  intro i _
  rw [Nat.zero_add, byte_zeroed_sig]

theorem verify_loop_try_events (env : Env) (mem : Mem) (keyring : String)
    (payload_sz spki_tlv sig_len : Nat) (keys : List public_key) :
    ∀ (count : Nat) (log : List Event) (k : public_key) (so sl : Nat) (data : List Nat),
      Event.try_key k so sl data ∈
        (tlv_verify_loop env mem keyring payload_sz spki_tlv sig_len keys count log).log →
      Event.try_key k so sl data ∈ log ∨
        (k ∈ keys ∧ k.keyring = some keyring ∧ spki_of_key k = spki_tlv ∧
          so = payload_sz + 4 ∧ sl = u32_sub sig_len 4 ∧ data = readBytes mem 0 payload_sz) := by
  induction keys with
  | nil =>
    intro count log k so sl data h
    simp only [tlv_verify_loop] at h
    left
    split at h
    · simpa using h
    · exact h
  | cons key rest ih =>
    intro count log k so sl data h
    simp only [tlv_verify_loop] at h
    have lift : Event.try_key k so sl data ∈ log ∨
        (k ∈ rest ∧ k.keyring = some keyring ∧ spki_of_key k = spki_tlv ∧
          so = payload_sz + 4 ∧ sl = u32_sub sig_len 4 ∧ data = readBytes mem 0 payload_sz) →
        Event.try_key k so sl data ∈ log ∨
        (k ∈ key :: rest ∧ k.keyring = some keyring ∧ spki_of_key k = spki_tlv ∧
          so = payload_sz + 4 ∧ sl = u32_sub sig_len 4 ∧ data = readBytes mem 0 payload_sz) := by
      rintro (h1 | ⟨h1, h2⟩)
      · exact Or.inl h1
      · exact Or.inr ⟨List.mem_cons_of_mem _ h1, h2⟩
    split at h
    · exact lift (ih _ _ _ _ _ _ h)
    · rename_i hk
      have hk' : key.keyring = some keyring :=
        (in_keyring_iff key keyring).1 (by simpa using hk)
      split at h
      · rename_i hs
        have here : ∀ l : List Event, Event.try_key k so sl data ∈
            l ++ [Event.try_key key (payload_sz + 4) (u32_sub sig_len 4)
              (readBytes mem 0 payload_sz)] →
            Event.try_key k so sl data ∈ l ∨
            (k ∈ key :: rest ∧ k.keyring = some keyring ∧ spki_of_key k = spki_tlv ∧
              so = payload_sz + 4 ∧ sl = u32_sub sig_len 4 ∧
              data = readBytes mem 0 payload_sz) := by
          intro l hm
          rcases List.mem_append.1 hm with hm | hm
          · exact Or.inl hm
          · simp only [List.mem_singleton, Event.try_key.injEq] at hm
            obtain ⟨h1, h2, h3, h4⟩ := hm
            rw [h1]
            exact Or.inr ⟨List.mem_cons_self _ _, hk', hs, h2, h3, h4⟩
        split at h
        · exact here log h
        · rcases ih _ _ _ _ _ _ h with h1 | h1
          · rcases List.mem_append.1 h1 with h2 | h2
            · exact here log h2
            · simp at h2
          · exact lift (Or.inr h1)
      · exact lift (ih _ _ _ _ _ _ h)

theorem try_key_digest_ext (env : Env) (digest : List Nat → List Nat) (key : public_key)
    (mem : Mem) (so sl n : Nat) (h : digest (readBytes mem 0 n) = env.digest (readBytes mem 0 n)) :
    tlv_verify_try_key (env_with_digest env digest) key mem so sl n =
      tlv_verify_try_key env key mem so sl n := by
  unfold tlv_verify_try_key env_with_digest
  simp only [h]

theorem verify_loop_digest_ext (env : Env) (digest : List Nat → List Nat) (mem : Mem)
    (keyring : String) (payload_sz spki_tlv sig_len : Nat)
    (h : digest (readBytes mem 0 payload_sz) = env.digest (readBytes mem 0 payload_sz))
    (keys : List public_key) :
    ∀ (count : Nat) (log : List Event),
      tlv_verify_loop (env_with_digest env digest) mem keyring payload_sz spki_tlv sig_len keys
        count log =
      tlv_verify_loop env mem keyring payload_sz spki_tlv sig_len keys count log := by
  induction keys with
  | nil => intro count log; rfl
  | cons key rest ih =>
    intro count log
    simp only [tlv_verify_loop, try_key_digest_ext env digest key mem _ _ _ h, ih]

/-- C15: with signature support enabled, a non-zero length_sig field and a
digest that can be allocated, tlv_verify returns 0 exactly when the verify
primitive accepts, for some key of the requested keyring with the blob's
fingerprint, the signature at offset 12 + length_tlv + 4 against the digest of
the first 12 + length_tlv bytes of the blob with the bytes at offsets 8 and 9
read as zero.  That byte string is the data recorded with every verification
attempt, the argument the digest is applied to in tlv_verify_try_key, and the
only input on which the digest function matters for the result of tlv_verify.
It has 12 + length_tlv bytes and does not depend on any byte at or after
offset 12 + length_tlv (fingerprint, signature, CRC) nor on the stored
length_sig bytes. -/
theorem tlv_verify_digest_data (env : Env) (keys : List public_key) (mem : Mem)
    (keyring : String) :
    (env.CONFIG_TLV_SIGNATURE = true → length_sig mem ≠ 0 →
      env.digest_alloc_by_algo = DigestPtr.valid →
      ((tlv_verify env keys mem keyring).ret = 0 ↔
        ∃ k ∈ keys, k.keyring = some keyring ∧
          spki_of_key k = get_unaligned_le32 mem (TLV_HEADER_SIZE + length_tlv mem) ∧
          env.public_key_verify k (put_unaligned_be16 0 mem OFF_LENGTH_SIG)
            (TLV_HEADER_SIZE + length_tlv mem + 4) (u32_sub (length_sig mem) 4)
            (env.digest (signed_region mem)) = 0)) ∧
    (∀ (k : public_key) (so sl : Nat) (data : List Nat),
      Event.try_key k so sl data ∈ (tlv_verify env keys mem keyring).log →
      data = signed_region mem ∧ k ∈ keys ∧ k.keyring = some keyring ∧
        spki_of_key k = get_unaligned_le32 mem (TLV_HEADER_SIZE + length_tlv mem)) ∧
    (∀ (k : public_key) (so sl : Nat), env.digest_alloc_by_algo = DigestPtr.valid →
      tlv_verify_try_key env k (put_unaligned_be16 0 mem OFF_LENGTH_SIG) so sl
          (TLV_HEADER_SIZE + length_tlv mem) =
        if env.public_key_verify k (put_unaligned_be16 0 mem OFF_LENGTH_SIG) so sl
            (env.digest (signed_region mem)) ≠ 0 then -ENOKEY else 0) ∧
    (∀ digest : List Nat → List Nat, digest (signed_region mem) = env.digest (signed_region mem) →
      tlv_verify (env_with_digest env digest) keys mem keyring =
        tlv_verify env keys mem keyring) ∧
    (signed_region mem).length = TLV_HEADER_SIZE + length_tlv mem ∧
    (∀ mem2 : Mem,
      (∀ i, i < TLV_HEADER_SIZE + length_tlv mem → i ≠ 8 → i ≠ 9 → mem2 i = mem i) →
      signed_region mem2 = signed_region mem) := by
  have hregion : readBytes (put_unaligned_be16 0 mem OFF_LENGTH_SIG) 0
      (TLV_HEADER_SIZE + length_tlv mem) = signed_region mem :=
    readBytes_zeroed_sig mem _
  have htry : ∀ (k : public_key) (so sl : Nat), env.digest_alloc_by_algo = DigestPtr.valid →
      tlv_verify_try_key env k (put_unaligned_be16 0 mem OFF_LENGTH_SIG) so sl
          (TLV_HEADER_SIZE + length_tlv mem) =
        if env.public_key_verify k (put_unaligned_be16 0 mem OFF_LENGTH_SIG) so sl
            (env.digest (signed_region mem)) ≠ 0 then -ENOKEY else 0 := by
    intro k so sl hvalid
    unfold tlv_verify_try_key
    rw [hvalid]
    simp only [hregion]
  refine ⟨?_, ?_, htry, ?_, ?_, ?_⟩
  · intro hen hsig hvalid
    have hen' : ¬ env.CONFIG_TLV_SIGNATURE = false := by rw [hen]; decide
    have hsig' : ¬ get_unaligned_be16 mem OFF_LENGTH_SIG = 0 := hsig
    have hzero : ∀ k : public_key,
        (tlv_verify_try_key env k (put_unaligned_be16 0 mem OFF_LENGTH_SIG)
          (TLV_HEADER_SIZE + length_tlv mem + 4) (u32_sub (length_sig mem) 4)
          (TLV_HEADER_SIZE + length_tlv mem) = 0 ↔
        env.public_key_verify k (put_unaligned_be16 0 mem OFF_LENGTH_SIG)
          (TLV_HEADER_SIZE + length_tlv mem + 4) (u32_sub (length_sig mem) 4)
          (env.digest (signed_region mem)) = 0) := by
      intro k
      rw [htry k _ _ hvalid]
      constructor
      · intro h
        by_contra hne
        rw [if_pos hne] at h
        exact absurd h (by decide)
      · intro h
        rw [if_neg (by rw [h]; exact fun hh => hh rfl)]
    have hloop := (verify_loop_ret env (put_unaligned_be16 0 mem OFF_LENGTH_SIG) keyring
      (TLV_HEADER_SIZE + length_tlv mem)
      (get_unaligned_le32 mem (TLV_HEADER_SIZE + length_tlv mem)) (length_sig mem) keys 0 []).1
    have hv : tlv_verify env keys mem keyring =
        tlv_verify_loop env (put_unaligned_be16 0 mem OFF_LENGTH_SIG) keyring
          (TLV_HEADER_SIZE + length_tlv mem)
          (get_unaligned_le32 mem (TLV_HEADER_SIZE + length_tlv mem)) (length_sig mem)
          keys 0 [] := by
      unfold tlv_verify
      simp only [if_neg hen', if_neg hsig']
      rfl
    rw [hv, hloop]
    constructor
    · rintro ⟨k, hk, h1, h2, h3⟩
      exact ⟨k, hk, h1, h2, (hzero k).1 h3⟩
    · rintro ⟨k, hk, h1, h2, h3⟩
      exact ⟨k, hk, h1, h2, (hzero k).2 h3⟩
  · intro k so sl data h
    unfold tlv_verify at h
    simp only at h
    split at h
    · simp at h
    · split at h
      · simp at h
      · rcases verify_loop_try_events env _ keyring _ _ _ keys 0 [] k so sl data h with h1 | h1
        · simp at h1
        · obtain ⟨hk, hkr, hsp, _, _, hd⟩ := h1
          refine ⟨?_, hk, hkr, hsp⟩
          rw [hd]
          exact hregion
  · intro digest hd
    unfold tlv_verify
    simp only
    have hcfg : (env_with_digest env digest).CONFIG_TLV_SIGNATURE = env.CONFIG_TLV_SIGNATURE := rfl
    rw [hcfg]
    split
    · rfl
    · split
      · rfl
      · refine verify_loop_digest_ext env digest _ keyring _ _ _ ?_ keys 0 []
        have hregion' : readBytes (put_unaligned_be16 0 mem OFF_LENGTH_SIG) 0
            (tlv_spki_hash_offset mem) = signed_region mem := hregion
        rw [hregion']
        exact hd
  · simp [signed_region]
  · intro mem2 hag
    have hb : ∀ i, i < TLV_HEADER_SIZE + length_tlv mem → i ≠ 8 → i ≠ 9 →
        byte mem2 i = byte mem i := by
      intro i h1 h2 h3
      unfold byte
      rw [hag i h1 h2 h3]
    have h12 : TLV_HEADER_SIZE = 12 := rfl
    have hlen : length_tlv mem2 = length_tlv mem := by
      simp only [length_tlv, get_unaligned_be32, OFF_LENGTH_TLV]
      rw [hb 4 (by omega) (by decide) (by decide), hb 5 (by omega) (by decide) (by decide),
        hb 6 (by omega) (by decide) (by decide), hb 7 (by omega) (by decide) (by decide)]
    unfold signed_region
    rw [hlen]
    apply List.map_congr_left
    intro i hi
    rw [List.mem_range] at hi
    by_cases h89 : i = 8 ∨ i = 9
    · simp only [if_pos h89]
    · simp only [if_neg h89]
      exact hb i hi (fun h => h89 (Or.inl h)) (fun h => h89 (Or.inr h))

theorem tlv_verify_digest_data_witness :
    (tlv_verify exEnvDigest [exKeyGood] exBlobSigned "board").ret = 0 ∧
    (tlv_verify exEnv [exKeyWrong, exKeyGood] exBlobSigned "board").log =
      [Event.try_key exKeyWrong 24 2
          [0x12, 0x34, 0x56, 0x78, 0, 0, 0, 8, 0, 0, 0, 0, 0, 1, 0, 4, 0xAA, 0xBB, 0xCC, 0xDD],
        Event.warn_verify_failed 0x04030201 (-ENOKEY),
        Event.try_key exKeyGood 24 2
          [0x12, 0x34, 0x56, 0x78, 0, 0, 0, 8, 0, 0, 0, 0, 0, 1, 0, 4, 0xAA, 0xBB, 0xCC, 0xDD]] ∧
    ([0x12, 0x34, 0x56, 0x78, 0, 0, 0, 8, 0, 0, 0, 0, 0, 1, 0, 4, 0xAA, 0xBB, 0xCC, 0xDD]
        = signed_region exBlobSigned ∧
      exKeyGood ∈ [exKeyWrong, exKeyGood] ∧ exKeyGood.keyring = some "board" ∧
      spki_of_key exKeyGood =
        get_unaligned_le32 exBlobSigned (TLV_HEADER_SIZE + length_tlv exBlobSigned)) :=
  ⟨((tlv_verify_digest_data exEnvDigest [exKeyGood] exBlobSigned "board").1
      (by decide) (by decide) (by decide)).2
      ⟨exKeyGood, by decide, by decide, by decide, by decide⟩,
   by decide,
   (tlv_verify_digest_data exEnv [exKeyWrong, exKeyGood] exBlobSigned "board").2.1 exKeyGood 24 2
     [0x12, 0x34, 0x56, 0x78, 0, 0, 0, 8, 0, 0, 0, 0, 0, 1, 0, 4, 0xAA, 0xBB, 0xCC, 0xDD]
     (by decide)⟩

set_option maxRecDepth 20000 in
/-- C16 (evaluation at the failing input): for the example blob with
length_sig = 2 and a key whose fingerprint equals the four bytes after the
record section, tlv_verify hands the verify primitive the signature address 24
and the length 4294967294, the 32-bit wrap of 2 - 4, which is larger than the
2-byte signature block; tlv_parse reaches that call after a passing CRC
check.  The wrap happens for each of the lengths 1, 2 and 3. -/
theorem tlv_verify_short_signature_wraps :
    length_sig exBlobSigShort = 2 ∧
    (tlv_verify exEnv [exKeyShort] exBlobSigShort "board").log =
      [Event.try_key exKeyShort 24 4294967294
        [0x12, 0x34, 0x56, 0x78, 0, 0, 0, 8, 0, 0, 0, 0, 0, 1, 0, 4, 0xAA, 0xBB, 0xCC, 0xDD]] ∧
    (tlv_parse exEnv [exKeyShort] exDecoderSigned exBlobSigShort []).map (fun r => r.log) =
      some [Event.crc32_be_call 22, Event.verify_call "board",
        Event.try_key exKeyShort 24 4294967294
          [0x12, 0x34, 0x56, 0x78, 0, 0, 0, 8, 0, 0, 0, 0, 0, 1, 0, 4, 0xAA, 0xBB, 0xCC, 0xDD],
        Event.handle 0 0 4 16] ∧
    u32_sub 1 4 = 4294967293 ∧ u32_sub 2 4 = 4294967294 ∧ u32_sub 3 4 = 4294967295 := by
  refine ⟨by decide, by decide, by decide, by decide, by decide, by decide⟩

/-! ## What tlv_next reads -/

theorem parse_loop_mem_log {σ : Type} (decoder : tlv_decoder σ) (mem : Mem) (fuel : Nat) :
    ∀ (cur : TlvPtr) (dev : σ) (log : List Event) (r : ParseResult σ),
      tlv_parse_loop decoder mem fuel cur dev log = some r →
      r.mem = mem ∧
        ∀ e ∈ r.log, e ∈ log ∨ e.is_handle = true ∨ ∃ tag, e = Event.warn_unknown_tag tag := by
  induction fuel with
  | zero =>
    intro cur dev log r h
    simp [tlv_parse_loop] at h
  | succ fuel ih =>
    intro cur dev log r h
    cases cur with
    | null =>
      simp only [tlv_parse_loop, Option.some.injEq] at h
      subst h
      exact ⟨rfl, fun e he => Or.inl he⟩
    | err code =>
      simp only [tlv_parse_loop, Option.some.injEq] at h
      subst h
      exact ⟨rfl, fun e he => Or.inl he⟩
    | ptr t =>
      simp only [tlv_parse_loop, TLV_VAL] at h
      cases hs : search_mappings (TLV_TAG mem t) decoder.mappings 0 with
      | none =>
        rw [hs] at h
        simp only at h
        obtain ⟨h1, h2⟩ := ih _ _ _ r h
        refine ⟨h1, ?_⟩
        intro e he
        rcases h2 e he with h3 | h3
        · split at h3
          · rcases List.mem_append.1 h3 with h4 | h4
            · exact Or.inl h4
            · exact Or.inr (Or.inr ⟨_, List.mem_singleton.1 h4⟩)
          · exact Or.inl h3
        · exact Or.inr h3
      | some found =>
        obtain ⟨tj, j, map⟩ := found
        rw [hs] at h
        simp only at h
        have happ : ∀ e ∈ log ++ [Event.handle tj j (TLV_LEN mem t) (t + 4)],
            e ∈ log ∨ e.is_handle = true ∨ ∃ tag, e = Event.warn_unknown_tag tag := by
          intro e he
          rcases List.mem_append.1 he with h4 | h4
          · exact Or.inl h4
          · rw [List.mem_singleton.1 h4]
            exact Or.inr (Or.inl rfl)
        split at h
        · simp only [Option.some.injEq] at h
          subst h
          exact ⟨rfl, happ⟩
        · obtain ⟨h1, h2⟩ := ih _ _ _ r h
          refine ⟨h1, ?_⟩
          intro e he
          rcases h2 e he with h3 | h3
          · exact happ e h3
          · exact Or.inr h3

theorem tlv_parse_no_keyring_log {σ : Type} (env : Env) (keys : List public_key)
    (decoder : tlv_decoder σ) (mem : Mem) (dev : σ) (r : ParseResult σ)
    (hk : decoder.signature_keyring = none)
    (h : tlv_parse env keys decoder mem dev = some r) :
    ∀ e ∈ r.log, e.is_try_key = false ∧ ∀ keyring, e ≠ Event.verify_call keyring := by
  have hfinal : ∀ e : Event, (e = Event.warn_overflow ∨ (∃ n, e = Event.crc32_be_call n) ∨
      (∃ c, e = Event.warn_crc c) ∨ e.is_handle = true ∨
      ∃ tag, e = Event.warn_unknown_tag tag) →
      e.is_try_key = false ∧ ∀ keyring, e ≠ Event.verify_call keyring := by
    intro e he
    rcases he with rfl | ⟨n, rfl⟩ | ⟨c, rfl⟩ | he | ⟨tag, rfl⟩
    · exact ⟨rfl, fun _ hh => nomatch hh⟩
    · exact ⟨rfl, fun _ hh => nomatch hh⟩
    · exact ⟨rfl, fun _ hh => nomatch hh⟩
    · cases e <;> simp [Event.is_handle] at he
      exact ⟨rfl, fun _ hh => nomatch hh⟩
    · exact ⟨rfl, fun _ hh => nomatch hh⟩
  unfold tlv_parse at h
  simp only [hk] at h
  intro e he
  apply hfinal
  split at h
  · simp only [Option.some.injEq] at h
    subst h
    exact Or.inl (List.mem_singleton.1 he)
  · split at h
    · simp only [Option.some.injEq] at h
      subst h
      simp only [List.singleton_append, List.mem_cons, List.mem_singleton, List.not_mem_nil,
        or_false] at he
      rcases he with he | he
      · exact Or.inr (Or.inl ⟨_, he⟩)
      · exact Or.inr (Or.inr (Or.inl ⟨_, he⟩))
    · rcases (parse_loop_mem_log decoder _ _ _ _ _ r h).2 e he with h1 | h1 | h1
      · exact Or.inr (Or.inl ⟨_, List.mem_singleton.1 h1⟩)
      · exact Or.inr (Or.inr (Or.inr (Or.inl h1)))
      · exact Or.inr (Or.inr (Or.inr (Or.inr h1)))

theorem tlv_parse_mem {σ : Type} (env : Env) (keys : List public_key)
    (decoder : tlv_decoder σ) (mem : Mem) (dev : σ) (r : ParseResult σ)
    (h : tlv_parse env keys decoder mem dev = some r) :
    r.mem = mem ∨
      ∃ keyring, decoder.signature_keyring = some keyring ∧
        r.mem = (tlv_verify env keys mem keyring).mem := by
  unfold tlv_parse at h
  simp only at h
  split at h
  · simp only [Option.some.injEq] at h
    subst h
    exact Or.inl rfl
  · split at h
    · simp only [Option.some.injEq] at h
      subst h
      exact Or.inl rfl
    · split at h
      · rename_i keyring hk
        right
        refine ⟨keyring, hk, ?_⟩
        split at h
        · simp only [Option.some.injEq] at h
          subst h
          rfl
        · exact (parse_loop_mem_log decoder _ _ _ _ _ r h).1
      · exact Or.inl (parse_loop_mem_log decoder _ _ _ _ _ r h).1

theorem tlv_parse_no_keyring {σ : Type} (env : Env) (keys keys' : List public_key)
    (decoder : tlv_decoder σ) (mem : Mem) (dev : σ) (hk : decoder.signature_keyring = none) :
    tlv_parse env keys' decoder mem dev = tlv_parse env keys decoder mem dev := by
  unfold tlv_parse
  simp only [hk]

/-- C18: tlv_verify leaves every byte of the blob at an offset other than 8
and 9 as it was, and so does tlv_parse; and when the decoder names no keyring
tlv_parse leaves the whole blob unchanged, makes no verification attempt and
does not enter tlv_verify, and its result is the same for every key list. -/
theorem tlv_parse_changes_only_length_sig {σ : Type} (env : Env) (keys : List public_key)
    (decoder : tlv_decoder σ) (mem : Mem) (dev : σ) :
    (∀ (keyring : String) (i : Nat), i ≠ 8 → i ≠ 9 →
      (tlv_verify env keys mem keyring).mem i = mem i) ∧
    (∃ r, tlv_parse env keys decoder mem dev = some r ∧
      (∀ i, i ≠ 8 → i ≠ 9 → r.mem i = mem i) ∧
      (decoder.signature_keyring = none →
        r.mem = mem ∧ r.log.filter Event.is_try_key = [] ∧
        (∀ keyring, Event.verify_call keyring ∉ r.log) ∧
        ∀ keys' : List public_key, tlv_parse env keys' decoder mem dev = some r)) := by
  refine ⟨fun keyring i h8 h9 => tlv_verify_frame env keys mem keyring i h8 h9, ?_⟩
  obtain ⟨r, hr⟩ := tlv_parse_total env keys decoder mem dev
  refine ⟨r, hr, ?_, ?_⟩
  · intro i h8 h9
    rcases tlv_parse_mem env keys decoder mem dev r hr with h | ⟨keyring, _, h⟩
    · rw [h]
    · rw [h]
      exact tlv_verify_frame env keys mem keyring i h8 h9
  · intro hk
    have hmem : r.mem = mem := by
      rcases tlv_parse_mem env keys decoder mem dev r hr with h | ⟨keyring, hk', _⟩
      · exact h
      · rw [hk] at hk'
        cases hk'
    have hlog := tlv_parse_no_keyring_log env keys decoder mem dev r hk hr
    refine ⟨hmem, ?_, ?_, ?_⟩
    · rw [List.filter_eq_nil_iff]
      intro e he
      rw [(hlog e he).1]
      decide
    · intro keyring hmemb
      exact (hlog _ hmemb).2 keyring rfl
    · intro keys'
      rw [tlv_parse_no_keyring env keys keys' decoder mem dev hk]
      exact hr

theorem tlv_parse_changes_only_length_sig_witness :
    (tlv_verify exEnv [exKeyGood] exBlobSigned "board").mem 12 = exBlobSigned 12 ∧
    (tlv_verify exEnv [exKeyGood] exBlobSigned "board").mem 20 = exBlobSigned 20 ∧
    ∃ r, tlv_parse exEnv [exKeyGood] exDecoder exBlob [] = some r ∧
      r.mem 12 = exBlob 12 ∧
      r.mem = exBlob ∧ r.log.filter Event.is_try_key = [] ∧
      (∀ keyring, Event.verify_call keyring ∉ r.log) ∧
      ∀ keys' : List public_key, tlv_parse exEnv keys' exDecoder exBlob [] = some r :=
  ⟨(tlv_parse_changes_only_length_sig exEnv [exKeyGood] exDecoderSigned exBlobSigned []).1
      "board" 12 (by decide) (by decide),
   (tlv_parse_changes_only_length_sig exEnv [exKeyGood] exDecoderSigned exBlobSigned []).1
      "board" 20 (by decide) (by decide),
   match (tlv_parse_changes_only_length_sig exEnv [exKeyGood] exDecoder exBlob []).2 with
   | ⟨r, hr, h1, h2⟩ => ⟨r, hr, h1 12 (by decide) (by decide), h2 rfl⟩⟩

/-! ## The iteration as a whole -/

end TLV
